import Mathlib

/-!
Verification of the Presentor markdown-to-presentation parser.

This file shallowly embeds the parsing core of the repository
(`src/parser.ts`, types from `src/types.ts`) into Lean and proves or
refutes the frozen claims about it.

Modelling conventions:
* JavaScript strings are Lean `String`s; all character work is done on
  `String.data : List Char` with hand-rolled structural functions so every
  definition is executable by kernel reduction.
* The source walks line arrays with a numeric cursor `i` and sub-parsers
  return an `endIndex` that may be `startIndex - 1` (JS `number` can be
  `-1`), so cursors and end indices are `Int`.
* Inner sub-parser loops advance the cursor on every iteration, so they are
  modelled as structural recursion over the suffix `lines.drop i`, carrying
  `i` only for `endIndex` bookkeeping.  The top-level block-dispatch loop of
  `parseSlide` does NOT always advance (see the C1 theorems), so it takes an
  explicit fuel parameter; the Boolean it returns records whether the loop
  reached its exit condition (`i ≥ lines.length`) within the given fuel.
* Regexes from the source are translated to explicit `List Char` matchers,
  including JS leftmost/greedy/lazy backtracking behaviour where it is
  observable (documented at each matcher).
-/

/-- JS `\s` / `trim` whitespace test (ASCII whitespace suffices here). -/
def isWsC (c : Char) : Bool := c.isWhitespace

/-- Trim whitespace from both ends of a character list (JS `String.trim`). -/
def trimC (l : List Char) : List Char :=
  ((l.dropWhile isWsC).reverse.dropWhile isWsC).reverse

/-- JS `line.trim()`. -/
def jsTrim (s : String) : String := ⟨trimC s.data⟩

/-- JS `toLowerCase` (ASCII). -/
def lowerS (s : String) : String := ⟨s.data.map Char.toLower⟩

/-- JS truthiness of an optional string: `undefined` and `""` are falsy. -/
def jsTruthy : Option String → Bool
  | none => false
  | some s => !(s == "")

/-- JS `input.split('\n')` on the character list: always nonempty. -/
def splitNl : List Char → List (List Char)
  | [] => [[]]
  | c :: rest =>
    match splitNl rest with
    | [] => [[]]
    | l :: ls => if c = '\n' then [] :: l :: ls else (c :: l) :: ls

/-- JS `input.split('\n')`. -/
def splitLines (s : String) : List String := (splitNl s.data).map String.mk

/-- `lines[i]` for an `Int` index; out-of-range access (never reached at the
source's call sites, which guard `i < lines.length`) yields `""`. -/
def lineAt (lines : List String) (i : Int) : String :=
  if i < 0 then "" else lines.getD i.toNat ""

/-- Does `pat` occur as a contiguous sublist (JS `String.includes`)? -/
def hasSub (pat : List Char) : List Char → Bool
  | [] => pat.isEmpty
  | c :: cs => pat.isPrefixOf (c :: cs) || hasSub pat cs

/-- JS `String.replace` with a non-global regex: replace the leftmost match.
`f l` returns the remainder after a match starting at the head of `l`, or
`none` if no match starts there. -/
def replFirst (f : List Char → Option (List Char)) : List Char → List Char
  | [] => []
  | c :: cs =>
    match f (c :: cs) with
    | some rest => rest
    | none => c :: replFirst f cs

-- ── Data model (src/types.ts) ──

inductive BlockType where
  | heading | subheading | text | bullets | numbered | image
  | code | quote | chart | mindmap | stockImage | aiImage
deriving DecidableEq

inductive ChartKind where
  | bar | pie | line
deriving DecidableEq

structure ChartItem where
  label : String
  value : ℚ
deriving DecidableEq

structure ChartData where
  type : ChartKind
  title : Option String
  items : List ChartItem
deriving DecidableEq

structure MMBranch where
  label : String
  children : Option (List String)
deriving DecidableEq

structure MindMapData where
  center : String
  branches : List MMBranch
deriving DecidableEq

structure ContentBlock where
  type : BlockType
  content : String
  items : Option (List String) := none
  level : Option Nat := none
  language : Option String := none
  alt : Option String := none
  src : Option String := none
  chartData : Option ChartData := none
  mindmapData : Option MindMapData := none
  imageQuery : Option String := none
  imageStyle : Option String := none
deriving DecidableEq

inductive SlideLayout where
  | title | section | content | twoColumn | imageFull | blank
deriving DecidableEq

structure Slide where
  layout : SlideLayout
  title : Option String
  subtitle : Option String
  blocks : List ContentBlock
  notes : Option String
  background : Option String
deriving DecidableEq

structure PresentationMeta where
  title : Option String := none
  author : Option String := none
  date : Option String := none
  theme : Option String := none
  aspectRatio : String := "16:9"
  accentColor : Option String := none
  fontFamily : Option String := none
  style : Option String := none
deriving DecidableEq

structure Presentation where
  meta : PresentationMeta
  slides : List Slide
deriving DecidableEq

-- ── Line matchers (regex translations from src/parser.ts) ──

/-- `/^-{3,}\s*$/.test(line)`: three-or-more dashes at the very start of the
raw line, followed only by whitespace. -/
def reSep (line : String) : Bool :=
  let l := line.data
  let d := l.takeWhile (fun c => c == '-')
  decide (d.length ≥ 3) && (l.drop d.length).all isWsC

/-- `/^```/.test(line.trim())` — used to toggle fence parity. -/
def isFenceLine (line : String) : Bool :=
  ("```").data.isPrefixOf (jsTrim line).data

/-- `/^```\s*$/.test(t)` on an already-trimmed line: a bare closing fence. -/
def codeCloseLine (t : String) : Bool :=
  ("```").data.isPrefixOf t.data && (t.data.drop 3).all isWsC

/-- `/^#\s+/.test(t)`. -/
def startsH1 (t : String) : Bool :=
  match t.data with
  | '#' :: c :: _ => isWsC c
  | _ => false

/-- `/^##\s+/.test(t)`. -/
def startsH2 (t : String) : Bool :=
  match t.data with
  | '#' :: '#' :: c :: _ => isWsC c
  | _ => false

/-- `/^###\s+/.test(t)`. -/
def startsH3 (t : String) : Bool :=
  match t.data with
  | '#' :: '#' :: '#' :: c :: _ => isWsC c
  | _ => false

/-- `t.replace(/^#{k}\s+/, '')` under the corresponding test: drop the `k`
hash marks and the greedy whitespace run after them. -/
def stripHashes (k : Nat) (t : String) : String :=
  ⟨(t.data.drop k).dropWhile isWsC⟩

/-- `/^[-*]\s+/.test(t)`. -/
def bulletPat (t : String) : Bool :=
  match t.data with
  | c :: d :: _ => (c == '-' || c == '*') && isWsC d
  | _ => false

/-- `t.replace(/^[-*]\s+/, '')`: strips the marker and the greedy whitespace
run when the pattern matches, otherwise returns the string unchanged (JS
`replace` with no match is the identity — this no-match case is reachable,
see the bullet sub-item branch). -/
def stripBulletMarker (t : String) : String :=
  if bulletPat t then ⟨(t.data.drop 1).dropWhile isWsC⟩ else t

/-- `/^\s+[-*]\s+/.test(line)` on the raw line. -/
def subBulletPat (line : String) : Bool :=
  let w := line.data.takeWhile isWsC
  decide (w.length ≥ 1) &&
    match line.data.drop w.length with
    | c :: d :: _ => (c == '-' || c == '*') && isWsC d
    | _ => false

/-- `/^\s*[-*]\s+/.test(line)` on the raw line. -/
def wsBulletPat (line : String) : Bool :=
  match line.data.dropWhile isWsC with
  | c :: d :: _ => (c == '-' || c == '*') && isWsC d
  | _ => false

/-- `/^\d+\.\s+/.test(t)`. -/
def numPat (t : String) : Bool :=
  let ds := t.data.takeWhile Char.isDigit
  decide (ds.length ≥ 1) &&
    match t.data.drop ds.length with
    | '.' :: c :: _ => isWsC c
    | _ => false

/-- `t.replace(/^\d+\.\s+/, '')` with the identity no-match fallback. -/
def stripNumMarker (t : String) : String :=
  if numPat t then
    let ds := t.data.takeWhile Char.isDigit
    ⟨((t.data.drop ds.length).drop 1).dropWhile isWsC⟩
  else t

/-- `/^>\s+/.test(t)` — the dispatcher's blockquote test. -/
def quoteDispatchPat (t : String) : Bool :=
  match t.data with
  | '>' :: c :: _ => isWsC c
  | _ => false

/-- `/^>\s*/.test(t)` — the blockquote loop's test (`\s*` may be empty, so
this is just a leading `>`). -/
def quoteLinePat (t : String) : Bool :=
  match t.data with
  | '>' :: _ => true
  | _ => false

/-- `t.replace(/^>\s*/, '')` with the identity no-match fallback. -/
def stripQuoteMarker (t : String) : String :=
  match t.data with
  | '>' :: rest => ⟨rest.dropWhile isWsC⟩
  | _ => t

/-- `trimmed.startsWith('<!-- notes:') || trimmed.startsWith('<!--notes:')`. -/
def notesLinePat (t : String) : Bool :=
  ("<!-- notes:").data.isPrefixOf t.data || ("<!--notes:").data.isPrefixOf t.data

/-- `trimmed.startsWith('<!-- bg:') || trimmed.startsWith('<!--bg:')`. -/
def bgLinePat (t : String) : Bool :=
  ("<!-- bg:").data.isPrefixOf t.data || ("<!--bg:").data.isPrefixOf t.data

/-- Match of `/<!--\s*notes:\s*/` starting at the head of `l` (greedy; no
backtracking is possible since `n` is not whitespace); returns the
remainder. -/
def notesMarkAt (l : List Char) : Option (List Char) :=
  if ("<!--").data.isPrefixOf l then
    let r := (l.drop 4).dropWhile isWsC
    if ("notes:").data.isPrefixOf r then some ((r.drop 6).dropWhile isWsC) else none
  else none

/-- Match of `/<!--\s*bg:\s*/` starting at the head of `l`. -/
def bgMarkAt (l : List Char) : Option (List Char) :=
  if ("<!--").data.isPrefixOf l then
    let r := (l.drop 4).dropWhile isWsC
    if ("bg:").data.isPrefixOf r then some ((r.drop 3).dropWhile isWsC) else none
  else none

/-- Match of `/\s*-->/` starting at the head of `l`: the maximal whitespace
run followed by `-->`; returns the remainder. -/
def arrowMarkAt (l : List Char) : Option (List Char) :=
  let w := l.takeWhile isWsC
  let r := l.drop w.length
  if ("-->").data.isPrefixOf r then some (r.drop 3) else none

-- ── Image directive matchers ──

/-- Does a `)` occur in `l` (so `([^)]*)\)` can succeed)? -/
def hasClose (l : List Char) : Bool := l.any (fun c => c == ')')

/-- The lazy tail `(.+?)\]\(([^)]*)\)` of the stock/AI image regexes: find
the minimal nonempty prefix `g` followed by `](`, such that a `)` occurs
after; the second group is then the maximal `)`-free run.  Returns
`(g, group2)`. -/
def scanLazyCap : List Char → Option (List Char × List Char)
  | [] => none
  | c :: rest =>
    if rest.take 2 == [']', '('] && hasClose (rest.drop 2) then
      some ([c], (rest.drop 2).takeWhile (fun d => !(d == ')')))
    else
      match scanLazyCap rest with
      | some (g, src) => some (c :: g, src)
      | none => none

/-- JS backtracking for `\s*(.+?)\]\(...`: the greedy `\s*` prefers the
longest whitespace run, backing off one character at a time until the lazy
tail succeeds.  `w` starts at the length of the maximal whitespace run. -/
def wsDescend : Nat → List Char → Option (List Char × List Char)
  | 0, r => scanLazyCap r
  | w + 1, r =>
    match scanLazyCap (r.drop (w + 1)) with
    | some res => some res
    | none => wsDescend w r

/-- `trimmed.match(/^!\[stock:\s*(.+?)\]\(([^)]*)\)/)`: `(query, src)`. -/
def stockMatch (t : String) : Option (String × String) :=
  if ("![stock:").data.isPrefixOf t.data then
    let r := t.data.drop 8
    match wsDescend (r.takeWhile isWsC).length r with
    | some (g, src) => some (⟨g⟩, ⟨src⟩)
    | none => none
  else none

/-- The `(photo|illustration|diagram):` alternation after `![ai-`. -/
def aiAlt (r : List Char) : Option (String × List Char) :=
  if ("photo:").data.isPrefixOf r then some ("photo", r.drop 6)
  else if ("illustration:").data.isPrefixOf r then some ("illustration", r.drop 13)
  else if ("diagram:").data.isPrefixOf r then some ("diagram", r.drop 8)
  else none

/-- `trimmed.match(/^!\[ai-(photo|illustration|diagram):\s*(.+?)\]\(([^)]*)\)/)`:
`(style, prompt, src)`. -/
def aiMatch (t : String) : Option (String × String × String) :=
  if ("![ai-").data.isPrefixOf t.data then
    match aiAlt (t.data.drop 5) with
    | some (st, r) =>
      match wsDescend (r.takeWhile isWsC).length r with
      | some (g, src) => some (st, ⟨g⟩, ⟨src⟩)
      | none => none
    | none => none
  else none

/-- `trimmed.match(/^!\[([^\]]*)\]\(([^)]*)\)/)`: `(alt, src)`.  The two
character classes are maximal `]`-free / `)`-free runs, each of which must be
followed by its closing delimiter. -/
def imgMatch (t : String) : Option (String × String) :=
  match t.data with
  | '!' :: '[' :: rest =>
    let alt := rest.takeWhile (fun c => !(c == ']'))
    match rest.drop alt.length with
    | ']' :: '(' :: r2 =>
      let src := r2.takeWhile (fun c => !(c == ')'))
      match r2.drop src.length with
      | ')' :: _ => some (⟨alt⟩, ⟨src⟩)
      | _ => none
    | _ => none
  | _ => none

-- ── Frontmatter parsing (parseFrontmatter) ──

/-- `value.replace(/^["']|["']$/g, '')`: strip one leading and one trailing
quote character independently (the two alternation arms match at most once
each under the `g` flag). -/
def stripQuotes (s : String) : String :=
  let l1 :=
    match s.data with
    | c :: cs => if c = '"' || c = '\'' then cs else s.data
    | [] => []
  let l2 :=
    match l1.getLast? with
    | some c => if c = '"' || c = '\'' then l1.dropLast else l1
    | none => l1
  ⟨l2⟩

/-- The `switch (key)` of the frontmatter loop. -/
def applyFmKey (meta : PresentationMeta) (key value : String) : PresentationMeta :=
  if key == "title" then { meta with title := some value }
  else if key == "author" then { meta with author := some value }
  else if key == "date" then { meta with date := some value }
  else if key == "theme" then { meta with theme := some value }
  else if key == "aspect-ratio" || key == "aspectratio" then
    if value == "4:3" || value == "16:9" then { meta with aspectRatio := value } else meta
  else if key == "accent-color" || key == "accentcolor" || key == "color" then
    { meta with accentColor := some value }
  else if key == "font" || key == "font-family" || key == "fontfamily" then
    { meta with fontFamily := some value }
  else if key == "style" then { meta with style := some value }
  else meta

/-- One interior frontmatter line (the body of the `for` loop at
parser.ts:70-99). -/
def fmStep (meta : PresentationMeta) (rawLine : String) : PresentationMeta :=
  let line := jsTrim rawLine
  if line == "" || ("#").data.isPrefixOf line.data then meta
  else
    match line.data.findIdx? (fun c => c == ':') with
    | none => meta
    | some colonIdx =>
      let key := lowerS (jsTrim ⟨line.data.take colonIdx⟩)
      let value := stripQuotes (jsTrim ⟨line.data.drop (colonIdx + 1)⟩)
      applyFmKey meta key value

/-- `parseFrontmatter(lines)`: returns the metadata and `bodyStart`. -/
def parseFrontmatter (lines : List String) : PresentationMeta × Nat :=
  let meta : PresentationMeta := {}
  if lines.length < 2 || !(jsTrim (lines.headD "") == "---") then (meta, 0)
  else
    match (lines.drop 1).findIdx? (fun l => jsTrim l == "---") with
    | none => (meta, 0)
    | some j =>
      (((lines.drop 1).take j).foldl fmStep meta, (j + 1) + 1)

def hasFrontmatterTitle (meta : PresentationMeta) : Bool := jsTruthy meta.title

-- ── Slide splitting (splitIntoSlides) ──

/-- `isInsideCodeBlock(lines)`: odd count of fence-opening lines. -/
def isInsideCodeBlock (lines : List String) : Bool :=
  decide (lines.countP isFenceLine % 2 = 1)

/-- The separator decision of the segmentation loop at parser.ts:114. -/
def sepDecision (line : String) (current : List String) : Bool :=
  reSep line && !isInsideCodeBlock current

/-- The body of the segmentation loop: state is (chunks so far, current). -/
def splitStep (acc : List (List String) × List String) (line : String) :
    List (List String) × List String :=
  let (chunks, current) := acc
  if sepDecision line current then
    if decide (current.length > 0) || decide (chunks.length = 0) then
      (chunks ++ [current], [])
    else (chunks, current)
  else (chunks, current ++ [line])

/-- The chunk list before the final empty-chunk filter (the local `chunks`
of `splitIntoSlides` just before the `return`). -/
def splitChunksRaw (lines : List String) (startIndex : Nat) : List (List String) :=
  let st := (lines.drop startIndex).foldl splitStep ([], [])
  if decide (st.2.length > 0) then st.1 ++ [st.2] else st.1

/-- `chunk.some(line => line.trim() !== '')`. -/
def chunkNonBlank (chunk : List String) : Bool :=
  chunk.any (fun l => !(jsTrim l == ""))

/-- `splitIntoSlides(lines, startIndex)`. -/
def splitIntoSlides (lines : List String) (startIndex : Nat) : List (List String) :=
  (splitChunksRaw lines startIndex).filter chunkNonBlank

-- ── Chart mini-language (parseChartData) ──

/-- Digit-run value (the regex guarantees only decimal digits). -/
def digitsToNat (l : List Char) : Nat :=
  l.foldl (fun n c => n * 10 + (c.toNat - ('0').toNat)) 0

/-- The numeric tail `\s*(\d+(?:\.\d+)?)$` after the first viable colon;
`parseFloat` on such a literal is the exact decimal value, modelled in ℚ. -/
def numTail (cs : List Char) : Option ℚ :=
  let r := cs.dropWhile isWsC
  let ds := r.takeWhile Char.isDigit
  if ds.isEmpty then none
  else
    match r.drop ds.length with
    | [] => some (digitsToNat ds : ℚ)
    | '.' :: fr =>
      if !fr.isEmpty && fr.all Char.isDigit then
        some ((digitsToNat ds : ℚ) + (digitsToNat fr : ℚ) / ((10 : ℚ) ^ fr.length))
      else none
    | _ => none

/-- `trimmed.match(/^type:\s*(bar|pie|line)$/i)` (both the key and the value
are compared case-insensitively; the captured value is lowercased). -/
def typeMatchQ (t : String) : Option ChartKind :=
  let low := t.data.map Char.toLower
  if ("type:").data.isPrefixOf low then
    let v := (low.drop 5).dropWhile isWsC
    if v == ("bar").data then some ChartKind.bar
    else if v == ("pie").data then some ChartKind.pie
    else if v == ("line").data then some ChartKind.line
    else none
  else none

/-- `trimmed.match(/^title:\s*(.+)$/i)` followed by `.trim()` on the capture:
succeeds when anything follows `title:`; the captured-and-trimmed value is
the trimmed remainder. -/
def titleMatchQ (t : String) : Option String :=
  if ("title:").data.isPrefixOf (t.data.map Char.toLower) && !(t.data.drop 6).isEmpty then
    some ⟨trimC (t.data.drop 6)⟩
  else none

/-- `trimmed.match(/^(.+?):\s*(\d+(?:\.\d+)?)$/)`: the lazy `(.+?)` picks the
first colon whose tail is a whitespace-padded number reaching the end of the
line.  A viable colon at position 0 makes the whole regex fail (the group
needs one character), and then no later colon can be viable since the tail
is colon-free, matching the backtracking engine. -/
def findDataColon : List Char → Option (List Char × ℚ)
  | [] => none
  | c :: cs =>
    if c = ':' then
      match numTail cs with
      | some v => some ([], v)
      | none => (findDataColon cs).map (fun p => (c :: p.1, p.2))
    else (findDataColon cs).map (fun p => (c :: p.1, p.2))

/-- The data-row match: label (trimmed) and numeric value. -/
def dataMatchQ (t : String) : Option (String × ℚ) :=
  match findDataColon t.data with
  | some (lbl, v) => if lbl.isEmpty then none else some (⟨trimC lbl⟩, v)
  | none => none

/-- One line of a `chart` fence body (the `for`-of loop body). -/
def chartStep (st : ChartData) (line : String) : ChartData :=
  let trimmed := jsTrim line
  if trimmed == "" then st
  else
    match typeMatchQ trimmed with
    | some k => { st with type := k }
    | none =>
      match titleMatchQ trimmed with
      | some v => { st with title := some v }
      | none =>
        match dataMatchQ trimmed with
        | some p => { st with items := st.items ++ [⟨p.1, p.2⟩] }
        | none => st

def parseChartData (lines : List String) : ChartData :=
  lines.foldl chartStep ⟨ChartKind.bar, none, []⟩

-- ── MindMap mini-language (parseMindMapData) ──

/-- `trimmed.match(/^center:\s*(.+)$/i)` followed by `.trim()`. -/
def centerMatchQ (t : String) : Option String :=
  if ("center:").data.isPrefixOf (t.data.map Char.toLower) && !(t.data.drop 7).isEmpty then
    some ⟨trimC (t.data.drop 7)⟩
  else none

/-- `line.match(/^-\s+(.+)$/)` followed by `.trim()` on the capture: the raw
line must start with `-` at column 0, then one whitespace character, then at
least one further character; the trimmed capture equals the trimmed
remainder after the dash. -/
def branchMatchQ (line : String) : Option String :=
  match line.data with
  | '-' :: c :: rest => if isWsC c && !rest.isEmpty then some ⟨trimC (c :: rest)⟩ else none
  | _ => none

/-- `line.match(/^\s{2,}-\s+(.+)$/)` followed by `.trim()` on the capture. -/
def childMatchQ (line : String) : Option String :=
  let w := line.data.takeWhile isWsC
  if w.length ≥ 2 then
    match line.data.drop w.length with
    | '-' :: c :: rest => if isWsC c && !rest.isEmpty then some ⟨trimC (c :: rest)⟩ else none
    | _ => none
  else none

/-- Push a child label onto the most recently added branch (with the
source's `if (!lastBranch.children) lastBranch.children = []` guard). -/
def appendChild (bs : List MMBranch) (lbl : String) : List MMBranch :=
  match bs.getLast? with
  | none => bs
  | some b => bs.dropLast ++ [{ b with children := some (b.children.getD [] ++ [lbl]) }]

/-- One line of a `mindmap` fence body. -/
def mmStep (st : MindMapData) (line : String) : MindMapData :=
  let trimmed := jsTrim line
  if trimmed == "" then st
  else
    match centerMatchQ trimmed with
    | some c => { st with center := c }
    | none =>
      match branchMatchQ line with
      | some lbl => { st with branches := st.branches ++ [⟨lbl, some []⟩] }
      | none =>
        match childMatchQ line with
        | some lbl =>
          if st.branches.isEmpty then st
          else { st with branches := appendChild st.branches lbl }
        | none => st

def parseMindMapData (lines : List String) : MindMapData :=
  lines.foldl mmStep ⟨"Topic", []⟩

-- ── Block sub-parsers ──

/-- A sub-parser result: the block and the JS `endIndex` (replaying the
source's `{ block, endIndex }` records; `endIndex` may be `startIndex - 1`
when nothing was consumed). -/
structure BlockRes where
  block : ContentBlock
  endIndex : Int
deriving DecidableEq

/-- The bullet loop's blank-line lookahead:
`i + 1 < lines.length && /^\s*[-*]\s+/.test(lines[i + 1])` over the suffix. -/
def wsBulletNext : List String → Bool
  | next :: _ => wsBulletPat next
  | [] => false

/-- The numbered loop's blank-line lookahead (tests the trimmed next line). -/
def numNext : List String → Bool
  | next :: _ => numPat (jsTrim next)
  | [] => false

def joinNl : List String → String
  | [] => ""
  | [x] => x
  | x :: xs => x ++ "\n" ++ joinNl xs

def joinSp : List String → String
  | [] => ""
  | [x] => x
  | x :: xs => x ++ " " ++ joinSp xs

/-- The `parseBulletList` loop over the suffix `lines.drop i`; returns the
collected items and the final cursor. -/
def bulletGo : List String → Int → List String → List String × Int
  | [], i, items => (items, i)
  | l :: rest, i, items =>
    let trimmed := jsTrim l
    if bulletPat trimmed then bulletGo rest (i + 1) (items ++ [stripBulletMarker trimmed])
    else if subBulletPat l && decide (items.length > 0) then
      bulletGo rest (i + 1) (items ++ [("  ") ++ stripBulletMarker trimmed])
    else if trimmed == "" && wsBulletNext rest then
      bulletGo rest (i + 1) items
    else (items, i)

def parseBulletList (lines : List String) (startIndex : Int) : BlockRes :=
  let r := bulletGo (lines.drop startIndex.toNat) startIndex []
  { block := { type := BlockType.bullets, content := joinNl r.1, items := some r.1 },
    endIndex := r.2 - 1 }

/-- The `parseNumberedList` loop (the blank-line lookahead trims the next
line, unlike the bullet loop which tests it raw). -/
def numGo : List String → Int → List String → List String × Int
  | [], i, items => (items, i)
  | l :: rest, i, items =>
    let trimmed := jsTrim l
    if numPat trimmed then numGo rest (i + 1) (items ++ [stripNumMarker trimmed])
    else if trimmed == "" && numNext rest then
      numGo rest (i + 1) items
    else (items, i)

def parseNumberedList (lines : List String) (startIndex : Int) : BlockRes :=
  let r := numGo (lines.drop startIndex.toNat) startIndex []
  { block := { type := BlockType.numbered, content := joinNl r.1, items := some r.1 },
    endIndex := r.2 - 1 }

/-- The paragraph break test at parser.ts:472-483 (`^#{1,3}\s+` is the
three heading tests disjoined). -/
def paraBreakPat (t : String) : Bool :=
  t == "" || startsH1 t || startsH2 t || startsH3 t || bulletPat t || numPat t ||
  ("```").data.isPrefixOf t.data || quoteDispatchPat t || ("![").data.isPrefixOf t.data ||
  ("<!--").data.isPrefixOf t.data || reSep t

def paraGo : List String → Int → List String → List String × Int
  | [], i, acc => (acc, i)
  | l :: rest, i, acc =>
    let trimmed := jsTrim l
    if paraBreakPat trimmed then (acc, i)
    else paraGo rest (i + 1) (acc ++ [trimmed])

def parseParagraph (lines : List String) (startIndex : Int) : BlockRes :=
  let r := paraGo (lines.drop startIndex.toNat) startIndex []
  { block := { type := BlockType.text, content := joinSp r.1 }, endIndex := r.2 - 1 }

def quoteGo : List String → Int → List String → List String × Int
  | [], i, acc => (acc, i)
  | l :: rest, i, acc =>
    if quoteLinePat (jsTrim l) then quoteGo rest (i + 1) (acc ++ [stripQuoteMarker (jsTrim l)])
    else (acc, i)

def parseBlockquote (lines : List String) (startIndex : Int) : BlockRes :=
  let r := quoteGo (lines.drop startIndex.toNat) startIndex []
  { block := { type := BlockType.quote, content := joinNl r.1 }, endIndex := r.2 - 1 }

/-- `firstLine.replace(/^```/, '')`. -/
def dropTicks (t : String) : String :=
  if ("```").data.isPrefixOf t.data then ⟨t.data.drop 3⟩ else t

/-- The `parseCodeBlock` collection loop; the Boolean records whether a
closing fence was found (`true` ⇒ cursor is its index, `false` ⇒ the loop
ran off the end). -/
def codeGo : List String → Int → List String → List String × Int × Bool
  | [], i, acc => (acc, i, false)
  | l :: rest, i, acc =>
    if codeCloseLine (jsTrim l) then (acc, i, true)
    else codeGo rest (i + 1) (acc ++ [l])

def parseCodeBlock (lines : List String) (startIndex : Int) : BlockRes :=
  let firstLine := jsTrim (lineAt lines startIndex)
  let language := if jsTrim (dropTicks firstLine) == "" then none else some (jsTrim (dropTicks firstLine))
  let r := codeGo (lines.drop (startIndex + 1).toNat) (startIndex + 1) []
  { block := { type := BlockType.code, content := joinNl r.1, language := language },
    endIndex := if r.2.2 then r.2.1 else r.2.1 - 1 }

/-- The shared fence-body collection loop of `parseChartBlock` and
`parseMindMapBlock`: both return `endIndex := i` whether the close was
found or the input ran out. -/
def fenceGo : List String → Int → List String → List String × Int
  | [], i, acc => (acc, i)
  | l :: rest, i, acc =>
    if codeCloseLine (jsTrim l) then (acc, i)
    else fenceGo rest (i + 1) (acc ++ [l])

def parseChartBlock (lines : List String) (startIndex : Int) : BlockRes :=
  let r := fenceGo (lines.drop (startIndex + 1).toNat) (startIndex + 1) []
  { block := { type := BlockType.chart, content := joinNl r.1,
               chartData := some (parseChartData r.1) },
    endIndex := r.2 }

def parseMindMapBlock (lines : List String) (startIndex : Int) : BlockRes :=
  let r := fenceGo (lines.drop (startIndex + 1).toNat) (startIndex + 1) []
  { block := { type := BlockType.mindmap, content := joinNl r.1,
               mindmapData := some (parseMindMapData r.1) },
    endIndex := r.2 }

-- ── Speaker notes and background directives ──

def stripNotesMark (t : String) : String := ⟨replFirst notesMarkAt t.data⟩

def stripBgMark (t : String) : String := ⟨replFirst bgMarkAt t.data⟩

def stripArrowMark (t : String) : String := ⟨replFirst arrowMarkAt t.data⟩

structure NotesRes where
  text : String
  endIndex : Int
deriving DecidableEq

/-- The multi-line accumulation loop of `extractNotes`. -/
def notesGo : List String → Int → String → String × Int
  | [], i, text => (jsTrim text, i - 1)
  | l :: rest, i, text =>
    let line := jsTrim l
    if hasSub (("-->").data) line.data then
      (jsTrim (text ++ "\n" ++ jsTrim (stripArrowMark line)), i)
    else notesGo rest (i + 1) (text ++ "\n" ++ line)

def extractNotes (lines : List String) (startIndex : Int) : NotesRes :=
  let singleLine := jsTrim (lineAt lines startIndex)
  if hasSub (("-->").data) singleLine.data then
    { text := jsTrim (stripArrowMark (stripNotesMark singleLine)), endIndex := startIndex }
  else
    let r := notesGo (lines.drop (startIndex + 1).toNat) (startIndex + 1)
      (jsTrim (stripNotesMark singleLine))
    { text := r.1, endIndex := r.2 }

-- ── Slide parsing (parseSlide) ──

/-- The mutable locals of `parseSlide`. -/
structure SlideSt where
  blocks : List ContentBlock
  title : Option String := none
  subtitle : Option String := none
  notes : Option String := none
  background : Option String := none
deriving DecidableEq

/-- The leading blank-line skip at parser.ts:153. -/
def skipGo : List String → Int → Int
  | [], i => i
  | l :: rest, i => if jsTrim l == "" then skipGo rest (i + 1) else i

/-- The block-dispatch loop of `parseSlide` (parser.ts:155-320).  This loop
does not always advance the cursor (`i = endIndex + 1` can equal `i`), so it
is fueled; the Boolean is `true` iff the loop exited through its
`i < lines.length` condition within the given fuel. -/
def slideLoop (lines : List String) : Nat → Int → SlideSt → SlideSt × Bool
  | 0, _, st => (st, false)
  | fuel + 1, i, st =>
    if i < (lines.length : Int) then
      let trimmed := jsTrim (lineAt lines i)
      if trimmed == "" then slideLoop lines fuel (i + 1) st
      else if notesLinePat trimmed then
        let nr := extractNotes lines i
        slideLoop lines fuel (nr.endIndex + 1) { st with notes := some nr.text }
      else if bgLinePat trimmed then
        slideLoop lines fuel (i + 1)
          { st with background := some (jsTrim (stripArrowMark (stripBgMark trimmed))) }
      else if startsH1 trimmed then
        if !(jsTruthy st.title) then
          slideLoop lines fuel (i + 1) { st with title := some (stripHashes 1 trimmed) }
        else
          slideLoop lines fuel (i + 1)
            { st with blocks := st.blocks ++
                [{ type := BlockType.heading, content := stripHashes 1 trimmed, level := some 1 }] }
      else if startsH2 trimmed then
        if !(jsTruthy st.title) then
          slideLoop lines fuel (i + 1) { st with title := some (stripHashes 2 trimmed) }
        else if !(jsTruthy st.subtitle) then
          slideLoop lines fuel (i + 1) { st with subtitle := some (stripHashes 2 trimmed) }
        else
          slideLoop lines fuel (i + 1)
            { st with blocks := st.blocks ++
                [{ type := BlockType.subheading, content := stripHashes 2 trimmed, level := some 2 }] }
      else if startsH3 trimmed then
        slideLoop lines fuel (i + 1)
          { st with blocks := st.blocks ++
              [{ type := BlockType.subheading, content := stripHashes 3 trimmed, level := some 3 }] }
      else if ("```").data.isPrefixOf trimmed.data then
        if lowerS (jsTrim (dropTicks trimmed)) == "chart" then
          let r := parseChartBlock lines i
          slideLoop lines fuel (r.endIndex + 1) { st with blocks := st.blocks ++ [r.block] }
        else if lowerS (jsTrim (dropTicks trimmed)) == "mindmap" then
          let r := parseMindMapBlock lines i
          slideLoop lines fuel (r.endIndex + 1) { st with blocks := st.blocks ++ [r.block] }
        else
          let r := parseCodeBlock lines i
          slideLoop lines fuel (r.endIndex + 1) { st with blocks := st.blocks ++ [r.block] }
      else
        match stockMatch trimmed with
        | some qs =>
          slideLoop lines fuel (i + 1)
            { st with blocks := st.blocks ++
                [{ type := BlockType.stockImage, content := qs.1, imageQuery := some qs.1,
                   alt := some qs.1, src := if qs.2 == "" then none else some qs.2 }] }
        | none =>
          match aiMatch trimmed with
          | some sp =>
            slideLoop lines fuel (i + 1)
              { st with blocks := st.blocks ++
                  [{ type := BlockType.aiImage, content := sp.2.1, imageStyle := some sp.1,
                     alt := some sp.2.1 }] }
          | none =>
            match imgMatch trimmed with
            | some asr =>
              slideLoop lines fuel (i + 1)
                { st with blocks := st.blocks ++
                    [{ type := BlockType.image, content := asr.2, alt := some asr.1,
                       src := if asr.2 == "" then none else some asr.2 }] }
            | none =>
              if quoteDispatchPat trimmed then
                let r := parseBlockquote lines i
                slideLoop lines fuel (r.endIndex + 1) { st with blocks := st.blocks ++ [r.block] }
              else if bulletPat trimmed then
                let r := parseBulletList lines i
                slideLoop lines fuel (r.endIndex + 1) { st with blocks := st.blocks ++ [r.block] }
              else if numPat trimmed then
                let r := parseNumberedList lines i
                slideLoop lines fuel (r.endIndex + 1) { st with blocks := st.blocks ++ [r.block] }
              else
                let r := parseParagraph lines i
                slideLoop lines fuel (r.endIndex + 1) { st with blocks := st.blocks ++ [r.block] }
    else (st, true)

/-- `inferLayout` (parser.ts:621-645). -/
def inferLayout (title subtitle : Option String) (blocks : List ContentBlock)
    (isFirstSlide : Bool) : SlideLayout :=
  let hasOnlyImageBlock : Bool :=
    match blocks with
    | [b] => b.type == BlockType.image
    | _ => false
  if hasOnlyImageBlock && !(jsTruthy title) then SlideLayout.imageFull
  else if isFirstSlide && blocks.isEmpty then SlideLayout.title
  else if jsTruthy title && blocks.isEmpty then SlideLayout.section
  else SlideLayout.content

/-- Run the dispatch loop of `parseSlide` from the first non-blank line. -/
def slideScan (fuel : Nat) (lines : List String) : SlideSt × Bool :=
  slideLoop lines fuel (skipGo lines 0) { blocks := [] }

def parseSlide (fuel : Nat) (lines : List String) (isFirstSlide : Bool) : Slide × Bool :=
  let r := slideScan fuel lines
  ({ layout := inferLayout r.1.title r.1.subtitle r.1.blocks isFirstSlide,
     title := r.1.title, subtitle := r.1.subtitle, blocks := r.1.blocks,
     notes := r.1.notes, background := r.1.background }, r.2)

-- ── Assembly (parse) ──

/-- `slideChunks.map((chunk, i) => parseSlide(chunk, i === 0 && !hasFrontmatterTitle(meta)))`. -/
def parseChunks (fuel : Nat) (ht : Bool) : Nat → List (List String) → List (Slide × Bool)
  | _, [] => []
  | i, c :: cs => parseSlide fuel c (decide (i = 0) && !ht) :: parseChunks fuel ht (i + 1) cs

/-- The post-hoc title back-fill at parser.ts:33-35. -/
def backfillTitle (meta : PresentationMeta) (slides : List Slide) : PresentationMeta :=
  match slides with
  | [] => meta
  | s0 :: _ =>
    if !(jsTruthy meta.title) && jsTruthy s0.title then { meta with title := s0.title }
    else meta

/-- `parse(input)`.  The Boolean is `true` iff every slide's dispatch loop
terminated within `fuel` steps (the JS original has no fuel; the C1
theorems show its loop genuinely diverges on some inputs). -/
def parse (fuel : Nat) (input : String) : Presentation × Bool :=
  let lines := splitLines input
  let fm := parseFrontmatter lines
  let results := parseChunks fuel (hasFrontmatterTitle fm.1) 0 (splitIntoSlides lines fm.2)
  let slides := results.map Prod.fst
  ({ meta := backfillTitle fm.1 slides, slides := slides }, results.all Prod.snd)

-- ── Spec-side definitions (phrased from the claims, for comparison) ──

/-- C5's layout cascade, written from the claim's words: exactly one content
block, of type `image`, and no (truthy) title → `image-full`; otherwise
first-chunk-with-no-prior-metadata-title and zero blocks → `title`;
otherwise title present and zero blocks → `section`; otherwise `content`. -/
def inferLayoutSpec (title subtitle : Option String) (blocks : List ContentBlock)
    (isFirstSlide : Bool) : SlideLayout :=
  if blocks.length = 1 ∧ (∀ b ∈ blocks, b.type = BlockType.image) ∧ jsTruthy title = false then
    SlideLayout.imageFull
  else if isFirstSlide = true ∧ blocks = [] then SlideLayout.title
  else if jsTruthy title = true ∧ blocks = [] then SlideLayout.section
  else SlideLayout.content

/-- C2's spec-side separator shape on the raw line: a run of three-or-more
dashes followed by nothing but whitespace. -/
def rawSepShape (line : String) : Prop :=
  ∃ n rest, 3 ≤ n ∧ line.data = List.replicate n '-' ++ rest ∧ ∀ c ∈ rest, isWsC c = true

/-- C9's re-serialization of a bullet block's item list, from the claim's
words: each item on its own line with the bullet marker restored, sub-items
keeping their stored two-space prefix ahead of the marker. -/
def serializeBulletItems (items : List String) : List String :=
  items.map (fun it =>
    if ("  ").data.isPrefixOf it.data then ("  - ") ++ (⟨it.data.drop 2⟩ : String)
    else ("- ") ++ it)

/-- C4's per-line data-row classification, from the claim's words: a line
that is not blank, not a kind-setting `type:` line and not a `title:` line,
but is `<label>: <number>`, contributes one item; all other lines none. -/
def chartItemOf (line : String) : Option ChartItem :=
  let t := jsTrim line
  if t == "" then none
  else if (typeMatchQ t).isSome then none
  else if (titleMatchQ t).isSome then none
  else (dataMatchQ t).map (fun p => ⟨p.1, p.2⟩)

/-- C6's claimed key list (the spec's eight recognized keys). -/
def claimedFmKeys : List String :=
  ["title", "author", "date", "theme", "aspect-ratio", "accent-color", "font-family", "style"]

/-- The keys the code actually recognizes: the claimed eight plus the alias
spellings `aspectratio`, `accentcolor`, `color`, `font`, `fontfamily`. -/
def recognizedFmKeys : List String :=
  claimedFmKeys ++ ["aspectratio", "accentcolor", "color", "font", "fontfamily"]

/-- The key a frontmatter interior line contributes (the extraction half of
`fmStep`): `none` for blank/comment/colon-free lines. -/
def fmKeyOf (rawLine : String) : Option String :=
  let line := jsTrim rawLine
  if line == "" || ("#").data.isPrefixOf line.data then none
  else (line.data.findIdx? (fun c => c == ':')).map (fun idx => lowerS (jsTrim ⟨line.data.take idx⟩))

/-- The (quote-stripped, trimmed) value of a frontmatter interior line. -/
def fmValueOf (rawLine : String) : Option String :=
  let line := jsTrim rawLine
  if line == "" || ("#").data.isPrefixOf line.data then none
  else (line.data.findIdx? (fun c => c == ':')).map
    (fun idx => stripQuotes (jsTrim ⟨line.data.drop (idx + 1)⟩))

/-- Items produced by the bullet-list parser are either stored sub-items
(two-space prefix) or "clean": nonempty with no whitespace at either end. -/
def noWsEnds (l : List Char) : Prop :=
  l.head?.all (fun c => !(isWsC c)) = true ∧ l.getLast?.all (fun c => !(isWsC c)) = true

def cleanItem (it : String) : Prop := it.data ≠ [] ∧ noWsEnds it.data

/-- C10's invariant: every list block carries a nonempty items array. -/
def itemsInv (bs : List ContentBlock) : Prop :=
  ∀ b ∈ bs, (b.type = BlockType.bullets ∨ b.type = BlockType.numbered) →
    ∃ its, b.items = some its ∧ its ≠ []

theorem c5test (title subtitle : Option String) (blocks : List ContentBlock) (first : Bool) :
    inferLayout title subtitle blocks first = inferLayoutSpec title subtitle blocks first ∧
    inferLayout title subtitle blocks first ≠ SlideLayout.twoColumn ∧
    inferLayout title subtitle blocks first ≠ SlideLayout.blank := by
  have h : inferLayout title subtitle blocks first = inferLayoutSpec title subtitle blocks first := by
    rcases blocks with _ | ⟨b, _ | ⟨c, bs⟩⟩ <;>
      simp only [inferLayout, inferLayoutSpec] <;>
      rcases first with _ | _ <;>
      rcases title with _ | t <;>
      simp_all [jsTruthy, List.isEmpty] <;>
      split_ifs <;>
      simp_all
  refine ⟨h, ?_, ?_⟩ <;> rw [h] <;> unfold inferLayoutSpec <;> split_ifs <;> simp

theorem dashWs (c : Char) (h : isWsC c = true) : (c == '-') = false := by
  by_cases hc : c = '-'
  · subst hc; simp [isWsC] at h
  · simp [hc]

theorem takeWhile_dash_rep (n : Nat) (rest : List Char)
    (hrest : ∀ c ∈ rest, isWsC c = true) :
    (List.replicate n '-' ++ rest).takeWhile (fun c => c == '-') = List.replicate n '-' := by
  induction n with
  | zero =>
    cases rest with
    | nil => rfl
    | cons c cs =>
      simp [List.takeWhile_cons, dashWs c (hrest c (by simp))]
  | succ n ih => simp [List.replicate_succ, List.takeWhile_cons, ih]

theorem drop_takeWhile_len (p : Char → Bool) (l : List Char) :
    l.drop (l.takeWhile p).length = l.dropWhile p := by
  induction l with
  | nil => rfl
  | cons c cs ih =>
    by_cases h : p c
    · simpa [List.takeWhile_cons, List.dropWhile_cons, h] using ih
    · simp [List.takeWhile_cons, List.dropWhile_cons, h]

theorem reSep_iff (line : String) : reSep line = true ↔ rawSepShape line := by
  unfold reSep rawSepShape
  constructor
  · intro h
    simp only [Bool.and_eq_true, decide_eq_true_eq, List.all_eq_true] at h
    obtain ⟨h3, hws⟩ := h
    refine ⟨(line.data.takeWhile (fun c => c == '-')).length,
      line.data.drop (line.data.takeWhile (fun c => c == '-')).length, h3, ?_, ?_⟩
    · have hrep : line.data.takeWhile (fun c => c == '-') =
          List.replicate (line.data.takeWhile (fun c => c == '-')).length '-' := by
        refine List.eq_replicate_of_mem ?_
        intro b hb
        simpa using List.mem_takeWhile_imp hb
      conv_lhs => rw [← List.takeWhile_append_dropWhile (p := fun c => c == '-') (l := line.data)]
      rw [drop_takeWhile_len]
      congr 1
    · exact hws
  · rintro ⟨n, rest, h3, heq, hws⟩
    have htw : line.data.takeWhile (fun c => c == '-') = List.replicate n '-' := by
      rw [heq]; exact takeWhile_dash_rep n rest hws
    have hdrop : line.data.drop n = rest := by
      rw [heq]
      simpa using List.drop_left (List.replicate n '-') rest
    simp only [htw, List.length_replicate, Bool.and_eq_true, decide_eq_true_eq,
      List.all_eq_true, hdrop]
    exact ⟨h3, hws⟩

theorem c2test (line : String) (current : List String) :
    (sepDecision line current = true ↔
      (rawSepShape line ∧ Even (current.countP isFenceLine))) ∧
    (¬ Even (current.countP isFenceLine) →
      ∀ chunks, splitStep (chunks, current) line = (chunks, current ++ [line])) := by
  have hpar : isInsideCodeBlock current = false ↔ Even (current.countP isFenceLine) := by
    unfold isInsideCodeBlock
    rw [Nat.even_iff]
    rcases Nat.mod_two_eq_zero_or_one (current.countP isFenceLine) with h | h <;> simp [h]
  constructor
  · unfold sepDecision
    rw [Bool.and_eq_true, Bool.not_eq_true', reSep_iff, hpar]
  · intro hodd chunks
    have hin : isInsideCodeBlock current = true := by
      by_cases hf : isInsideCodeBlock current = true
      · exact hf
      · exact absurd (hpar.mp (by simpa using hf)) hodd
    unfold splitStep sepDecision
    simp [hin]

theorem dropWhile_append_of_all (p : Char → Bool) (w r : List Char)
    (hw : ∀ c ∈ w, p c = true) : (w ++ r).dropWhile p = r.dropWhile p := by
  induction w with
  | nil => rfl
  | cons c cs ih =>
    simp only [List.cons_append, List.dropWhile_cons, hw c (by simp), if_true]
    exact ih (fun d hd => hw d (by simp [hd]))

theorem dropWhile_single_append (p : Char → Bool) (x : Char) (hx : p x = false)
    (l : List Char) : (l ++ [x]).dropWhile p = l.dropWhile p ++ [x] := by
  induction l with
  | nil => simp [List.dropWhile_cons, hx]
  | cons c cs ih =>
    by_cases h : p c
    · simpa [List.dropWhile_cons, h] using ih
    · simp [List.dropWhile_cons, h]

theorem rtrim_cons (x : Char) (l : List Char) (hx : isWsC x = false) :
    ((x :: l).reverse.dropWhile isWsC).reverse = x :: ((l.reverse.dropWhile isWsC).reverse) := by
  rw [List.reverse_cons, dropWhile_single_append _ x hx, List.reverse_append]
  simp

theorem trimC_cons_not_ws (x : Char) (l : List Char) (hx : isWsC x = false) :
    trimC (x :: l) = x :: ((l.reverse.dropWhile isWsC).reverse) := by
  unfold trimC
  rw [List.dropWhile_cons, if_neg (by simp [hx])]
  exact rtrim_cons x l hx

theorem centerMatchQ_dash (t : String) (r : List Char) (h : t.data = '-' :: r) :
    centerMatchQ t = none := by
  unfold centerMatchQ
  rw [h]
  simp [List.isPrefixOf]

theorem jsTrim_dash (line : String) (r : List Char) (h : line.data.dropWhile isWsC = '-' :: r) :
    (jsTrim line).data = '-' :: ((r.reverse.dropWhile isWsC).reverse) := by
  show trimC line.data = _
  unfold trimC
  rw [h]
  exact rtrim_cons '-' r (by decide)

theorem branchMatchQ_not_dash (line : String) (a : Char) (as : List Char)
    (hdata : line.data = a :: as) (ha : a ≠ '-') : branchMatchQ line = none := by
  unfold branchMatchQ
  rw [hdata]
  split
  · rename_i heq
    rw [List.cons.injEq] at heq
    exact absurd heq.1 ha
  · rfl

theorem mmStep_branch (st : MindMapData) (line : String) (lbl : String)
    (h : branchMatchQ line = some lbl) :
    mmStep st line = { st with branches := st.branches ++ [⟨lbl, some []⟩] } := by
  obtain ⟨c, rest, hdata⟩ : ∃ c rest, line.data = '-' :: c :: rest := by
    unfold branchMatchQ at h
    split at h
    · rename_i c2 rest2 heq
      exact ⟨c2, rest2, heq⟩
    · exact Option.noConfusion h
  have hdrop : line.data.dropWhile isWsC = '-' :: (c :: rest) := by
    rw [hdata, List.dropWhile_cons, if_neg (by decide)]
  have htd := jsTrim_dash line (c :: rest) hdrop
  have hne : (jsTrim line == "") = false := by
    rw [beq_eq_false_iff_ne]
    intro he
    rw [String.ext_iff] at he
    rw [htd] at he
    simp at he
  unfold mmStep
  simp only [hne, Bool.false_eq_true, if_false, centerMatchQ_dash _ _ htd, h]

theorem mmStep_child (st : MindMapData) (line : String) (lbl : String)
    (h : childMatchQ line = some lbl) :
    (st.branches ≠ [] → mmStep st line = { st with branches := appendChild st.branches lbl }) ∧
    (st.branches = [] → mmStep st line = st) := by
  have hw2 : 2 ≤ (line.data.takeWhile isWsC).length := by
    unfold childMatchQ at h
    by_cases h2 : 2 ≤ (line.data.takeWhile isWsC).length
    · exact h2
    · simp [h2] at h
  obtain ⟨a, as, hdata, hwa⟩ : ∃ a as, line.data = a :: as ∧ isWsC a = true := by
    rcases hl : line.data with _ | ⟨a, as⟩
    · rw [hl] at hw2; simp at hw2
    · refine ⟨a, as, rfl, ?_⟩
      by_cases hwa : isWsC a = true
      · exact hwa
      · rw [hl, List.takeWhile_cons, if_neg (by simp [hwa])] at hw2
        simp at hw2
  have hbr : branchMatchQ line = none := by
    refine branchMatchQ_not_dash line a as hdata ?_
    intro hcontra
    rw [hcontra] at hwa
    simp [isWsC] at hwa
  obtain ⟨c, rest, hdw⟩ : ∃ c rest, line.data.dropWhile isWsC = '-' :: c :: rest := by
    unfold childMatchQ at h
    rw [if_pos hw2] at h
    rw [← drop_takeWhile_len isWsC line.data]
    rcases hd : line.data.drop (line.data.takeWhile isWsC).length with _ | ⟨x, _ | ⟨y, r⟩⟩ <;>
      rw [hd] at h
    · simp at h
    · split at h
      · rename_i heq
        exact absurd heq (by simp)
      · exact Option.noConfusion h
    · split at h
      · rename_i heq
        rw [List.cons.injEq] at heq
        exact ⟨y, r, by rw [heq.1]⟩
      · exact Option.noConfusion h
  have htd := jsTrim_dash line (c :: rest) hdw
  have hne : (jsTrim line == "") = false := by
    rw [beq_eq_false_iff_ne]
    intro he
    rw [String.ext_iff, htd] at he
    simp at he
  constructor
  · intro hbne
    unfold mmStep
    simp only [hne, Bool.false_eq_true, if_false, centerMatchQ_dash _ _ htd, hbr, h,
      List.isEmpty_iff, hbne, if_neg]
  · intro hbe
    unfold mmStep
    simp only [hne, Bool.false_eq_true, if_false, centerMatchQ_dash _ _ htd, hbr, h,
      List.isEmpty_iff, hbe, if_pos]

theorem mmStep_one_space (st : MindMapData) (s : List Char) :
    mmStep st ⟨' ' :: '-' :: s⟩ = st := by
  have hdw : (' ' :: '-' :: s).dropWhile isWsC = '-' :: s := by
    rw [List.dropWhile_cons, if_pos (by decide), List.dropWhile_cons, if_neg (by decide)]
  have htd := jsTrim_dash ⟨' ' :: '-' :: s⟩ s hdw
  have hne : (jsTrim ⟨' ' :: '-' :: s⟩ == "") = false := by
    rw [beq_eq_false_iff_ne]
    intro he
    rw [String.ext_iff, htd] at he
    simp at he
  have hbr : branchMatchQ ⟨' ' :: '-' :: s⟩ = none :=
    branchMatchQ_not_dash _ ' ' ('-' :: s) rfl (by decide)
  have hch : childMatchQ ⟨' ' :: '-' :: s⟩ = none := by
    unfold childMatchQ
    have h1 : ((' ' :: '-' :: s : List Char).takeWhile isWsC).length = 1 := by
      rw [List.takeWhile_cons, if_pos (by decide), List.takeWhile_cons, if_neg (by decide)]
      rfl
    simp [h1]
  unfold mmStep
  simp only [hne, Bool.false_eq_true, if_false, centerMatchQ_dash _ _ htd, hbr, hch]

theorem type_title_disjoint (t : String) (k : ChartKind) (h : typeMatchQ t = some k) :
    titleMatchQ t = none := by
  unfold typeMatchQ at h
  unfold titleMatchQ
  by_cases h1 : ("type:").data.isPrefixOf (t.data.map Char.toLower) = true
  · by_cases h2 : ("title:").data.isPrefixOf (t.data.map Char.toLower) = true
    · exfalso
      obtain ⟨r1, hr1⟩ := List.isPrefixOf_iff_prefix.mp h1
      obtain ⟨r2, hr2⟩ := List.isPrefixOf_iff_prefix.mp h2
      have e1 : (t.data.map Char.toLower).take 5 = ("type:").data := by
        rw [← hr1]
        simpa using List.take_left (("type:").data) r1
      have e2 : (t.data.map Char.toLower).take 5 = (("title:").data).take 5 := by
        rw [← hr2]
        exact List.take_append_of_le_length (by decide)
      rw [e1] at e2
      exact absurd e2 (by decide)
    · simp [h2]
  · rw [if_neg (by simp [h1])] at h
    exact Option.noConfusion h

theorem chartItems_foldl (ls : List String) : ∀ (st : ChartData),
    (ls.foldl chartStep st).items = st.items ++ ls.filterMap chartItemOf := by
  induction ls with
  | nil => simp
  | cons l rest ih =>
    intro st
    rw [List.foldl_cons, List.filterMap_cons]
    by_cases hb : jsTrim l = ""
    · have h0 : chartStep st l = st := by
        unfold chartStep
        simp [hb]
      have h1 : chartItemOf l = none := by
        unfold chartItemOf
        simp [hb]
      rw [h0, h1, ih]
    · have hbne : (jsTrim l == "") = false := by simp [hb]
      cases ht : typeMatchQ (jsTrim l) with
      | some k =>
        have h0 : chartStep st l = { st with type := k } := by
          unfold chartStep
          simp [hbne, ht]
        have h1 : chartItemOf l = none := by
          unfold chartItemOf
          simp [hbne, ht]
        rw [h0, h1, ih]
      | none =>
        cases hti : titleMatchQ (jsTrim l) with
        | some v =>
          have h0 : chartStep st l = { st with title := some v } := by
            unfold chartStep
            simp [hbne, ht, hti]
          have h1 : chartItemOf l = none := by
            unfold chartItemOf
            simp [hbne, ht, hti]
          rw [h0, h1, ih]
        | none =>
          cases hd : dataMatchQ (jsTrim l) with
          | some p =>
            have h0 : chartStep st l = { st with items := st.items ++ [⟨p.1, p.2⟩] } := by
              unfold chartStep
              simp [hbne, ht, hti, hd]
            have h1 : chartItemOf l = some ⟨p.1, p.2⟩ := by
              unfold chartItemOf
              simp [hbne, ht, hti, hd]
            rw [h0, h1, ih]
            simp
          | none =>
            have h0 : chartStep st l = st := by
              unfold chartStep
              simp [hbne, ht, hti, hd]
            have h1 : chartItemOf l = none := by
              unfold chartItemOf
              simp [hbne, ht, hti, hd]
            rw [h0, h1, ih]

theorem getLastD_cons_eq {α : Type} (a d : α) (l : List α) :
    (a :: l).getLastD d = l.getLastD a := by
  cases l <;> simp [List.getLastD]

theorem getLast?_cons_or {α : Type} (l : List α) (a : α) (o : Option α) :
    Option.or ((a :: l).getLast?) o = Option.or (l.getLast?) (some a) := by
  induction l generalizing a o with
  | nil => simp [List.getLast?]
  | cons b l ih =>
    rw [List.getLast?_cons_cons, ih b o, ← ih b (some a)]

theorem chartType_foldl (ls : List String) : ∀ st : ChartData,
    (ls.foldl chartStep st).type =
      (ls.filterMap (fun l => typeMatchQ (jsTrim l))).getLastD st.type := by
  induction ls with
  | nil => simp [List.getLastD]
  | cons l rest ih =>
    intro st
    rw [List.foldl_cons, List.filterMap_cons]
    by_cases hb : jsTrim l = ""
    · have ht : typeMatchQ (jsTrim l) = none := by rw [hb]; decide
      have h0 : chartStep st l = st := by
        unfold chartStep
        simp [hb]
      rw [h0, ht, ih]
    · have hbne : (jsTrim l == "") = false := by simp [hb]
      cases ht : typeMatchQ (jsTrim l) with
      | some k =>
        have h0 : chartStep st l = { st with type := k } := by
          unfold chartStep
          simp [hbne, ht]
        rw [h0, ih, getLastD_cons_eq]
      | none =>
        have h0 : (chartStep st l).type = st.type := by
          unfold chartStep
          cases hti : titleMatchQ (jsTrim l) <;> cases hd : dataMatchQ (jsTrim l) <;>
            simp [hbne, ht, hti, hd]
        rw [ih, h0]

theorem chartTitle_foldl (ls : List String) : ∀ st : ChartData,
    (ls.foldl chartStep st).title =
      Option.or ((ls.filterMap (fun l => titleMatchQ (jsTrim l))).getLast?) st.title := by
  induction ls with
  | nil => simp
  | cons l rest ih =>
    intro st
    rw [List.foldl_cons, List.filterMap_cons]
    by_cases hb : jsTrim l = ""
    · have hti : titleMatchQ (jsTrim l) = none := by rw [hb]; decide
      have h0 : chartStep st l = st := by
        unfold chartStep
        simp [hb]
      rw [h0, hti, ih]
    · have hbne : (jsTrim l == "") = false := by simp [hb]
      cases ht : typeMatchQ (jsTrim l) with
      | some k =>
        have hti := type_title_disjoint (jsTrim l) k ht
        have h0 : chartStep st l = { st with type := k } := by
          unfold chartStep
          simp [hbne, ht]
        rw [h0, hti, ih]
      | none =>
        cases hti : titleMatchQ (jsTrim l) with
        | some v =>
          have h0 : chartStep st l = { st with title := some v } := by
            unfold chartStep
            simp [hbne, ht, hti]
          rw [h0, ih, getLast?_cons_or]
        | none =>
          have h0 : (chartStep st l).title = st.title := by
            unfold chartStep
            cases hd : dataMatchQ (jsTrim l) <;> simp [hbne, ht, hti, hd]
          rw [ih, h0]

theorem parseChunks_length (fuel : Nat) (ht : Bool) :
    ∀ (i : Nat) (cs : List (List String)), (parseChunks fuel ht i cs).length = cs.length := by
  intro i cs
  induction cs generalizing i with
  | nil => rfl
  | cons c rest ih => simp [parseChunks, ih]

theorem c7test (fuel : Nat) (input : String) :
    ((parse fuel input).1).slides.length =
      (splitChunksRaw (splitLines input) (parseFrontmatter (splitLines input)).2).countP
        chunkNonBlank := by
  unfold parse
  simp only [List.length_map, parseChunks_length]
  unfold splitIntoSlides
  rw [List.countP_eq_length_filter]

theorem c8test (input : String) (fuel : Nat) :
    (∀ s0 : Slide,
      ((parse fuel input).1).slides.head? = some s0 →
      jsTruthy (parseFrontmatter (splitLines input)).1.title = false →
      jsTruthy s0.title = true →
      ((parse fuel input).1).meta.title = s0.title) ∧
    ((parse fuel input).1).meta.author = (parseFrontmatter (splitLines input)).1.author ∧
    ((parse fuel input).1).meta.date = (parseFrontmatter (splitLines input)).1.date ∧
    ((parse fuel input).1).meta.theme = (parseFrontmatter (splitLines input)).1.theme ∧
    ((parse fuel input).1).meta.aspectRatio = (parseFrontmatter (splitLines input)).1.aspectRatio ∧
    ((parse fuel input).1).meta.accentColor = (parseFrontmatter (splitLines input)).1.accentColor ∧
    ((parse fuel input).1).meta.fontFamily = (parseFrontmatter (splitLines input)).1.fontFamily ∧
    ((parse fuel input).1).meta.style = (parseFrontmatter (splitLines input)).1.style ∧
    ((parse fuel input).1).slides =
      (parseChunks fuel (hasFrontmatterTitle (parseFrontmatter (splitLines input)).1) 0
        (splitIntoSlides (splitLines input) (parseFrontmatter (splitLines input)).2)).map
        Prod.fst := by
  unfold parse
  refine ⟨?_, ?_⟩
  · intro s0 hhead hmt hst
    simp only at hhead ⊢
    unfold backfillTitle
    cases hS : (parseChunks fuel (hasFrontmatterTitle (parseFrontmatter (splitLines input)).1) 0
        (splitIntoSlides (splitLines input) (parseFrontmatter (splitLines input)).2)).map
        Prod.fst with
    | nil => rw [hS] at hhead; exact Option.noConfusion hhead
    | cons t rest =>
      rw [hS] at hhead
      simp only [List.head?_cons, Option.some.injEq] at hhead
      subst hhead
      simp [hmt, hst]
  · unfold backfillTitle
    cases hS : (parseChunks fuel (hasFrontmatterTitle (parseFrontmatter (splitLines input)).1) 0
        (splitIntoSlides (splitLines input) (parseFrontmatter (splitLines input)).2)).map
        Prod.fst with
    | nil => simp only [hS]; simp
    | cons t rest =>
      simp only [hS]
      split_ifs <;> simp

theorem fm_unrecognized (meta : PresentationMeta) (rawLine : String) :
    (fmKeyOf rawLine = none → fmStep meta rawLine = meta) ∧
    (∀ k, fmKeyOf rawLine = some k → k ∉ recognizedFmKeys → fmStep meta rawLine = meta) ∧
    (∀ k v, fmKeyOf rawLine = some k → fmValueOf rawLine = some v →
      (k = "aspect-ratio" ∨ k = "aspectratio") → v ≠ "4:3" → v ≠ "16:9" →
      fmStep meta rawLine = meta) := by
  by_cases h0 : (jsTrim rawLine == "" || ("#").data.isPrefixOf (jsTrim rawLine).data) = true
  · have hstep : fmStep meta rawLine = meta := by
      unfold fmStep
      rw [if_pos h0]
    exact ⟨fun _ => hstep, fun _ _ _ => hstep, fun _ _ _ _ _ _ _ => hstep⟩
  · cases hidx : (jsTrim rawLine).data.findIdx? (fun c => c == ':') with
    | none =>
      have hstep : fmStep meta rawLine = meta := by
        unfold fmStep
        rw [if_neg h0, hidx]
      exact ⟨fun _ => hstep, fun _ _ _ => hstep, fun _ _ _ _ _ _ _ => hstep⟩
    | some idx =>
      have hkey : fmKeyOf rawLine =
          some (lowerS (jsTrim ⟨(jsTrim rawLine).data.take idx⟩)) := by
        unfold fmKeyOf
        rw [if_neg h0, hidx]
        rfl
      have hval : fmValueOf rawLine =
          some (stripQuotes (jsTrim ⟨(jsTrim rawLine).data.drop (idx + 1)⟩)) := by
        unfold fmValueOf
        rw [if_neg h0, hidx]
        rfl
      have hstep : fmStep meta rawLine =
          applyFmKey meta (lowerS (jsTrim ⟨(jsTrim rawLine).data.take idx⟩))
            (stripQuotes (jsTrim ⟨(jsTrim rawLine).data.drop (idx + 1)⟩)) := by
        unfold fmStep
        rw [if_neg h0, hidx]
      refine ⟨fun hcon => by rw [hkey] at hcon; exact Option.noConfusion hcon, ?_, ?_⟩
      · intro k hk hnot
        rw [hkey, Option.some.injEq] at hk
        subst hk
        rw [hstep]
        simp only [recognizedFmKeys, claimedFmKeys, List.mem_append, List.mem_cons,
          List.not_mem_nil, or_false, not_or] at hnot
        obtain ⟨⟨n1, n2, n3, n4, n5, n6, n7, n8⟩, n9, n10, n11, n12, n13⟩ := hnot
        unfold applyFmKey
        simp [n1, n2, n3, n4, n5, n6, n7, n8, n9, n10, n11, n12, n13]
      · intro k v hk hv hasp h43 h169
        rw [hkey, Option.some.injEq] at hk
        rw [hval, Option.some.injEq] at hv
        subst hk
        subst hv
        rw [hstep]
        unfold applyFmKey
        rcases hasp with ha | ha <;> rw [ha] <;> simp [h43, h169]

theorem slideLoop_comment (fuel : Nat) : ∀ st : SlideSt,
    (slideLoop [("<!-- hello -->")] fuel 0 st).2 = false := by
  induction fuel with
  | zero => intro st; rfl
  | succ fuel ih => intro st; exact ih _

theorem slideLoop_malformed_img (fuel : Nat) : ∀ st : SlideSt,
    (slideLoop [("![")] fuel 0 st).2 = false := by
  induction fuel with
  | zero => intro st; rfl
  | succ fuel ih => intro st; exact ih _

theorem parse_comment_diverges (fuel : Nat) : (parse fuel ("<!-- hello -->")).2 = false := by
  show ((slideLoop [("<!-- hello -->")] fuel 0 { blocks := [] }).2 && true) = false
  rw [slideLoop_comment fuel { blocks := [] }]
  rfl

theorem bulletGo_extends (ls : List String) : ∀ (i : Int) (acc : List String),
    ∃ t, (bulletGo ls i acc).1 = acc ++ t := by
  induction ls with
  | nil => intro i acc; exact ⟨[], by simp [bulletGo]⟩
  | cons l rest ih =>
    intro i acc
    simp only [bulletGo]
    by_cases h1 : bulletPat (jsTrim l) = true
    · rw [if_pos h1]
      obtain ⟨t, ht⟩ := ih (i + 1) (acc ++ [stripBulletMarker (jsTrim l)])
      exact ⟨stripBulletMarker (jsTrim l) :: t, by rw [ht]; simp⟩
    · rw [if_neg h1]
      by_cases h2 : (subBulletPat l && decide (acc.length > 0)) = true
      · rw [if_pos h2]
        obtain ⟨t, ht⟩ := ih (i + 1) (acc ++ [("  ") ++ stripBulletMarker (jsTrim l)])
        exact ⟨(("  ") ++ stripBulletMarker (jsTrim l)) :: t, by rw [ht]; simp⟩
      · rw [if_neg h2]
        by_cases h3 : (jsTrim l == "" && wsBulletNext rest) = true
        · rw [if_pos h3]
          exact ih (i + 1) acc
        · rw [if_neg h3]
          exact ⟨[], by simp⟩

theorem numGo_extends (ls : List String) : ∀ (i : Int) (acc : List String),
    ∃ t, (numGo ls i acc).1 = acc ++ t := by
  induction ls with
  | nil => intro i acc; exact ⟨[], by simp [numGo]⟩
  | cons l rest ih =>
    intro i acc
    simp only [numGo]
    by_cases h1 : numPat (jsTrim l) = true
    · rw [if_pos h1]
      obtain ⟨t, ht⟩ := ih (i + 1) (acc ++ [stripNumMarker (jsTrim l)])
      exact ⟨stripNumMarker (jsTrim l) :: t, by rw [ht]; simp⟩
    · rw [if_neg h1]
      by_cases h3 : (jsTrim l == "" && numNext rest) = true
      · rw [if_pos h3]
        exact ih (i + 1) acc
      · rw [if_neg h3]
        exact ⟨[], by simp⟩

theorem lineAt_drop_cons (lines : List String) (i : Int)
    (hneg : ¬i < 0) (hlt : i.toNat < lines.length) :
    lines.drop i.toNat = lineAt lines i :: lines.drop (i.toNat + 1) := by
  have hget : lineAt lines i = lines[i.toNat] := by
    unfold lineAt
    rw [if_neg hneg]
    exact List.getD_eq_getElem lines "" hlt
  rw [hget]
  exact List.drop_eq_getElem_cons hlt

theorem parseBulletList_items_ne (lines : List String) (i : Int)
    (hp : bulletPat (jsTrim (lineAt lines i)) = true)
    (hneg : ¬i < 0) (hlt : i.toNat < lines.length) :
    ∃ its, (parseBulletList lines i).block.items = some its ∧ its ≠ [] := by
  unfold parseBulletList
  rw [lineAt_drop_cons lines i hneg hlt]
  simp only [bulletGo]
  rw [if_pos hp]
  obtain ⟨t, ht⟩ := bulletGo_extends (lines.drop (i.toNat + 1)) (i + 1)
    ([] ++ [stripBulletMarker (jsTrim (lineAt lines i))])
  refine ⟨(bulletGo (lines.drop (i.toNat + 1)) (i + 1)
    ([] ++ [stripBulletMarker (jsTrim (lineAt lines i))])).1, rfl, ?_⟩
  rw [ht]
  simp

theorem parseNumberedList_items_ne (lines : List String) (i : Int)
    (hp : numPat (jsTrim (lineAt lines i)) = true)
    (hneg : ¬i < 0) (hlt : i.toNat < lines.length) :
    ∃ its, (parseNumberedList lines i).block.items = some its ∧ its ≠ [] := by
  unfold parseNumberedList
  rw [lineAt_drop_cons lines i hneg hlt]
  simp only [numGo]
  rw [if_pos hp]
  obtain ⟨t, ht⟩ := numGo_extends (lines.drop (i.toNat + 1)) (i + 1)
    ([] ++ [stripNumMarker (jsTrim (lineAt lines i))])
  refine ⟨(numGo (lines.drop (i.toNat + 1)) (i + 1)
    ([] ++ [stripNumMarker (jsTrim (lineAt lines i))])).1, rfl, ?_⟩
  rw [ht]
  simp

theorem itemsInv_append (bs : List ContentBlock) (b : ContentBlock) (h : itemsInv bs)
    (hb : (b.type = BlockType.bullets ∨ b.type = BlockType.numbered) →
      ∃ its, b.items = some its ∧ its ≠ []) : itemsInv (bs ++ [b]) := by
  intro x hx hty
  rcases List.mem_append.mp hx with hx | hx
  · exact h x hx hty
  · rw [List.mem_singleton.mp hx]
    exact hb (by rw [← List.mem_singleton.mp hx]; exact hty)

theorem inbounds_of_trimmed_ne (lines : List String) (i : Int)
    (h1 : ¬(jsTrim (lineAt lines i) == "") = true) :
    ¬i < 0 ∧ i.toNat < lines.length := by
  constructor
  · intro hneg
    apply h1
    unfold lineAt
    rw [if_pos hneg]
    rfl
  · by_cases hlt : i.toNat < lines.length
    · exact hlt
    · exfalso
      apply h1
      unfold lineAt
      split
      · rfl
      · rw [List.getD_eq_default lines "" (by omega)]
        rfl

theorem slideLoop_itemsInv (lines : List String) (fuel : Nat) :
    ∀ (i : Int) (st : SlideSt), itemsInv st.blocks →
      itemsInv ((slideLoop lines fuel i st).1).blocks := by
  induction fuel with
  | zero => intro i st h; exact h
  | succ fuel ih =>
    intro i st h
    simp only [slideLoop]
    by_cases hlt : i < (lines.length : Int)
    case neg => rw [if_neg hlt]; exact h
    rw [if_pos hlt]
    by_cases h1 : (jsTrim (lineAt lines i) == "") = true
    · rw [if_pos h1]; exact ih _ _ h
    rw [if_neg h1]
    obtain ⟨hneg, hbound⟩ := inbounds_of_trimmed_ne lines i h1
    by_cases h2 : notesLinePat (jsTrim (lineAt lines i)) = true
    · rw [if_pos h2]; exact ih _ _ h
    rw [if_neg h2]
    by_cases h3 : bgLinePat (jsTrim (lineAt lines i)) = true
    · rw [if_pos h3]; exact ih _ _ h
    rw [if_neg h3]
    by_cases h4 : startsH1 (jsTrim (lineAt lines i)) = true
    · rw [if_pos h4]
      by_cases h4b : (!jsTruthy st.title) = true
      · rw [if_pos h4b]; exact ih _ _ h
      · rw [if_neg h4b]
        refine ih _ _ (itemsInv_append _ _ h ?_)
        intro hty
        rcases hty with hty | hty <;> exact BlockType.noConfusion hty
    rw [if_neg h4]
    by_cases h5 : startsH2 (jsTrim (lineAt lines i)) = true
    · rw [if_pos h5]
      by_cases h5b : (!jsTruthy st.title) = true
      · rw [if_pos h5b]; exact ih _ _ h
      · rw [if_neg h5b]
        by_cases h5c : (!jsTruthy st.subtitle) = true
        · rw [if_pos h5c]; exact ih _ _ h
        · rw [if_neg h5c]
          refine ih _ _ (itemsInv_append _ _ h ?_)
          intro hty
          rcases hty with hty | hty <;> exact BlockType.noConfusion hty
    rw [if_neg h5]
    by_cases h6 : startsH3 (jsTrim (lineAt lines i)) = true
    · rw [if_pos h6]
      refine ih _ _ (itemsInv_append _ _ h ?_)
      intro hty
      rcases hty with hty | hty <;> exact BlockType.noConfusion hty
    rw [if_neg h6]
    by_cases h7 : (("```").data.isPrefixOf (jsTrim (lineAt lines i)).data) = true
    · rw [if_pos h7]
      by_cases h7a : (lowerS (jsTrim (dropTicks (jsTrim (lineAt lines i)))) == "chart") = true
      · rw [if_pos h7a]
        refine ih _ _ (itemsInv_append _ _ h ?_)
        intro hty
        rcases hty with hty | hty <;> exact BlockType.noConfusion hty
      · rw [if_neg h7a]
        by_cases h7b :
            (lowerS (jsTrim (dropTicks (jsTrim (lineAt lines i)))) == "mindmap") = true
        · rw [if_pos h7b]
          refine ih _ _ (itemsInv_append _ _ h ?_)
          intro hty
          rcases hty with hty | hty <;> exact BlockType.noConfusion hty
        · rw [if_neg h7b]
          refine ih _ _ (itemsInv_append _ _ h ?_)
          intro hty
          rcases hty with hty | hty <;> exact BlockType.noConfusion hty
    rw [if_neg h7]
    cases h8 : stockMatch (jsTrim (lineAt lines i)) with
    | some qs =>
      refine ih _ _ (itemsInv_append _ _ h ?_)
      intro hty
      rcases hty with hty | hty <;> exact BlockType.noConfusion hty
    | none =>
    cases h9 : aiMatch (jsTrim (lineAt lines i)) with
    | some sp =>
      refine ih _ _ (itemsInv_append _ _ h ?_)
      intro hty
      rcases hty with hty | hty <;> exact BlockType.noConfusion hty
    | none =>
    cases h10 : imgMatch (jsTrim (lineAt lines i)) with
    | some asr =>
      refine ih _ _ (itemsInv_append _ _ h ?_)
      intro hty
      rcases hty with hty | hty <;> exact BlockType.noConfusion hty
    | none =>
    by_cases h11 : quoteDispatchPat (jsTrim (lineAt lines i)) = true
    · rw [if_pos h11]
      refine ih _ _ (itemsInv_append _ _ h ?_)
      intro hty
      rcases hty with hty | hty <;> exact BlockType.noConfusion hty
    rw [if_neg h11]
    by_cases h12 : bulletPat (jsTrim (lineAt lines i)) = true
    · rw [if_pos h12]
      refine ih _ _ (itemsInv_append _ _ h ?_)
      intro _
      exact parseBulletList_items_ne lines i h12 hneg hbound
    rw [if_neg h12]
    by_cases h13 : numPat (jsTrim (lineAt lines i)) = true
    · rw [if_pos h13]
      refine ih _ _ (itemsInv_append _ _ h ?_)
      intro _
      exact parseNumberedList_items_ne lines i h13 hneg hbound
    rw [if_neg h13]
    refine ih _ _ (itemsInv_append _ _ h ?_)
    intro hty
    rcases hty with hty | hty <;> exact BlockType.noConfusion hty

theorem parseChunks_mem (fuel : Nat) (ht : Bool) :
    ∀ (i : Nat) (cs : List (List String)) (s : Slide),
      s ∈ (parseChunks fuel ht i cs).map Prod.fst →
      ∃ c isf, s = (parseSlide fuel c isf).1 := by
  intro i cs
  induction cs generalizing i with
  | nil => intro s hs; simp [parseChunks] at hs
  | cons c rest ih =>
    intro s hs
    simp only [parseChunks, List.map_cons, List.mem_cons] at hs
    rcases hs with hs | hs
    · exact ⟨c, _, hs⟩
    · exact ih (i + 1) s hs

theorem c10test (fuel : Nat) (input : String) :
    ∀ s ∈ ((parse fuel input).1).slides, ∀ b ∈ s.blocks,
      (b.type = BlockType.bullets ∨ b.type = BlockType.numbered) →
      ∃ its, b.items = some its ∧ its ≠ [] := by
  intro s hs b hb hty
  have hs' : ∃ c isf, s = (parseSlide fuel c isf).1 := by
    refine parseChunks_mem fuel
      (hasFrontmatterTitle (parseFrontmatter (splitLines input)).1) 0
      (splitIntoSlides (splitLines input) (parseFrontmatter (splitLines input)).2) s ?_
    exact hs
  obtain ⟨c, isf, rfl⟩ := hs'
  have h0 : itemsInv ([] : List ContentBlock) := by
    intro x hx
    exact absurd hx (List.not_mem_nil x)
  exact slideLoop_itemsInv c fuel (skipGo c 0) { blocks := [] } h0 b hb hty

theorem dropWhile_head_not (p : Char → Bool) (l : List Char) (c : Char) (cs : List Char)
    (h : l.dropWhile p = c :: cs) : p c = false := by
  induction l with
  | nil => simp at h
  | cons a as ih =>
    rw [List.dropWhile_cons] at h
    by_cases hp : p a = true
    · rw [if_pos hp] at h
      exact ih h
    · rw [if_neg hp] at h
      rw [List.cons.injEq] at h
      rw [← h.1]
      simpa using hp

theorem getLast?_append_right {α : Type} (l₁ l₂ : List α) (h : l₂ ≠ []) :
    (l₁ ++ l₂).getLast? = l₂.getLast? := by
  induction l₁ with
  | nil => simp
  | cons a as ih =>
    rw [List.cons_append]
    cases hq : as ++ l₂ with
    | nil =>
      exact absurd (List.append_eq_nil.mp hq).2 h
    | cons b bs =>
      rw [List.getLast?_cons_cons, ← hq, ih]

theorem rtrim_of_last (l : List Char) (h : l.getLast?.all (fun c => !(isWsC c)) = true) :
    (l.reverse.dropWhile isWsC).reverse = l := by
  cases hr : l.reverse with
  | nil =>
    have : l = [] := by simpa using congrArg List.reverse hr
    rw [this]
    rfl
  | cons c cs =>
    have hc : l.getLast? = some c := by
      rw [← List.head?_reverse, hr]
      rfl
    rw [hc] at h
    simp only [Option.all_some] at h
    rw [List.dropWhile_cons, if_neg (by simp_all), ← hr, List.reverse_reverse]

theorem trimC_noWsEnds (l : List Char) : noWsEnds (trimC l) := by
  constructor
  · cases hX : l.dropWhile isWsC with
    | nil =>
      have : trimC l = [] := by
        unfold trimC
        rw [hX]
        rfl
      rw [this]
      rfl
    | cons c cs =>
      have hcws : isWsC c = false := dropWhile_head_not isWsC l c cs hX
      have : trimC l = c :: ((cs.reverse.dropWhile isWsC).reverse) := by
        unfold trimC
        rw [hX]
        exact rtrim_cons c cs hcws
      rw [this]
      simpa using hcws
  · have hrev : (trimC l).getLast? = ((l.dropWhile isWsC).reverse.dropWhile isWsC).head? := by
      unfold trimC
      rw [List.getLast?_reverse]
    rw [hrev]
    cases hY : (l.dropWhile isWsC).reverse.dropWhile isWsC with
    | nil => rfl
    | cons c cs =>
      have := dropWhile_head_not isWsC ((l.dropWhile isWsC).reverse) c cs hY
      simpa using this

theorem stripBullet_clean (l : String) (h : bulletPat (jsTrim l) = true) :
    cleanItem (stripBulletMarker (jsTrim l)) := by
  have hends : noWsEnds (jsTrim l).data := trimC_noWsEnds l.data
  obtain ⟨m, c, rest0, hdata, hws⟩ :
      ∃ m c rest0, (jsTrim l).data = m :: c :: rest0 ∧ isWsC c = true := by
    unfold bulletPat at h
    split at h
    · rename_i m c rest0 heq
      refine ⟨m, c, rest0, heq, ?_⟩
      simp only [Bool.and_eq_true] at h
      exact h.2
    · exact Bool.noConfusion h
  have hstrip : (stripBulletMarker (jsTrim l)).data = rest0.dropWhile isWsC := by
    unfold stripBulletMarker
    rw [if_pos h]
    show ((((jsTrim l).data).drop 1).dropWhile isWsC) = rest0.dropWhile isWsC
    rw [hdata]
    show ((c :: rest0).dropWhile isWsC) = rest0.dropWhile isWsC
    rw [List.dropWhile_cons, if_pos (by simp [hws])]
  have hr0ne : rest0 ≠ [] := by
    intro hcon
    subst hcon
    have := hends.2
    rw [hdata] at this
    simp only [List.getLast?_cons_cons, List.getLast?_singleton, Option.all_some] at this
    simp [hws] at this
  have hlast : rest0.getLast?.all (fun c => !(isWsC c)) = true := by
    have := hends.2
    rw [hdata] at this
    have h2 : (m :: c :: rest0).getLast? = rest0.getLast? := by
      rw [List.getLast?_cons_cons]
      cases hr : rest0 with
      | nil => exact absurd hr hr0ne
      | cons x xs => rw [List.getLast?_cons_cons]
    rw [h2] at this
    exact this
  have hdwne : rest0.dropWhile isWsC ≠ [] := by
    intro hcon
    have hall : ∀ a ∈ rest0, isWsC a = true := by
      intro a ha
      exact List.dropWhile_eq_nil_iff.mp hcon a ha
    cases hgl : rest0.getLast? with
    | none => exact hr0ne (by simpa using hgl)
    | some g =>
      have hg : g ∈ rest0 := by
        obtain ⟨hne2, hg2⟩ := List.mem_getLast?_eq_getLast (l := rest0) (x := g)
          (by rw [hgl]; rfl)
        rw [hg2]
        exact List.getLast_mem hne2
      have := hall g hg
      rw [hgl] at hlast
      simp only [Option.all_some] at hlast
      simp [this] at hlast
  refine ⟨by rw [hstrip]; exact hdwne, ?_, ?_⟩
  · rw [hstrip]
    cases hY : rest0.dropWhile isWsC with
    | nil => rfl
    | cons c2 cs2 =>
      have := dropWhile_head_not isWsC rest0 c2 cs2 hY
      simpa using this
  · rw [hstrip]
    have hsplit : rest0 = rest0.takeWhile isWsC ++ rest0.dropWhile isWsC :=
      (List.takeWhile_append_dropWhile isWsC rest0).symm
    have : (rest0.takeWhile isWsC ++ rest0.dropWhile isWsC).getLast? =
        (rest0.dropWhile isWsC).getLast? :=
      getLast?_append_right _ _ hdwne
    rw [← hsplit] at this
    rw [← this]
    exact hlast

theorem bulletGo_items_clean (ls : List String) : ∀ (i : Int) (acc : List String),
    (∀ it ∈ acc, cleanItem it ∨ ("  ").data.isPrefixOf it.data = true) →
    ∀ it ∈ (bulletGo ls i acc).1, cleanItem it ∨ ("  ").data.isPrefixOf it.data = true := by
  induction ls with
  | nil =>
    intro i acc hacc it hit
    exact hacc it hit
  | cons l rest ih =>
    intro i acc hacc it hit
    simp only [bulletGo] at hit
    by_cases h1 : bulletPat (jsTrim l) = true
    · rw [if_pos h1] at hit
      refine ih (i + 1) _ ?_ it hit
      intro x hx
      rcases List.mem_append.mp hx with hx | hx
      · exact hacc x hx
      · rw [List.mem_singleton.mp hx]
        exact Or.inl (stripBullet_clean l h1)
    · rw [if_neg h1] at hit
      by_cases h2 : (subBulletPat l && decide (acc.length > 0)) = true
      · rw [if_pos h2] at hit
        refine ih (i + 1) _ ?_ it hit
        intro x hx
        rcases List.mem_append.mp hx with hx | hx
        · exact hacc x hx
        · rw [List.mem_singleton.mp hx]
          refine Or.inr ?_
          rw [List.isPrefixOf_iff_prefix]
          show ("  ").data <+: (("  ") ++ stripBulletMarker (jsTrim l)).data
          rw [String.data_append]
          exact List.prefix_append _ _
      · rw [if_neg h2] at hit
        by_cases h3 : (jsTrim l == "" && wsBulletNext rest) = true
        · rw [if_pos h3] at hit
          exact ih (i + 1) acc hacc it hit
        · rw [if_neg h3] at hit
          exact hacc it hit

theorem clean_no_indent (it : String) (h : cleanItem it) :
    ("  ").data.isPrefixOf it.data = false := by
  obtain ⟨hne, hh, _⟩ := h
  cases hd : it.data with
  | nil => exact absurd hd hne
  | cons c cs =>
    rw [hd] at hh
    simp only [List.head?_cons, Option.all_some] at hh
    by_cases hp : ("  ").data.isPrefixOf (c :: cs) = true
    · exfalso
      obtain ⟨r, hr⟩ := List.isPrefixOf_iff_prefix.mp hp
      have : c = ' ' := by
        have := congrArg (fun l => l.head?) hr
        simpa using this.symm
      rw [this] at hh
      have hws : isWsC ' ' = true := by decide
      rw [hws] at hh
      exact Bool.noConfusion hh
    · exact Bool.eq_false_iff.mpr hp

theorem clean_serial_trim (it : String) (h : cleanItem it) :
    jsTrim (("- ") ++ it) = ("- ") ++ it := by
  obtain ⟨hne, _, hlast⟩ := h
  have hd : (("- ") ++ it).data = '-' :: ' ' :: it.data := by
    rw [String.data_append]
    rfl
  show String.mk (trimC (("- ") ++ it).data) = ("- ") ++ it
  rw [hd, trimC_cons_not_ws '-' (' ' :: it.data) (by decide)]
  have hl2 : (' ' :: it.data).getLast?.all (fun c => !(isWsC c)) = true := by
    cases hq : it.data with
    | nil => exact absurd hq hne
    | cons x xs =>
      rw [List.getLast?_cons_cons, ← hq]
      exact hlast
  rw [rtrim_of_last (' ' :: it.data) hl2]
  rw [String.ext_iff, hd]

theorem bulletGo_ser (its : List String) : ∀ (i : Int) (acc : List String),
    (∀ it ∈ its, cleanItem it) →
    bulletGo (serializeBulletItems its) i acc = (acc ++ its, i + (its.length : Int)) := by
  induction its with
  | nil =>
    intro i acc _
    simp [serializeBulletItems, bulletGo]
  | cons it rest ih =>
    intro i acc hclean
    have hc : cleanItem it := hclean it (by simp)
    have hser : serializeBulletItems (it :: rest) =
        (("- ") ++ it) :: serializeBulletItems rest := by
      unfold serializeBulletItems
      rw [List.map_cons]
      rw [if_neg (by simp [clean_no_indent it hc])]
    rw [hser]
    simp only [bulletGo]
    have htr := clean_serial_trim it hc
    have hdata : (("- ") ++ it).data = '-' :: ' ' :: it.data := by
      rw [String.data_append]
      rfl
    have hpat : bulletPat (jsTrim (("- ") ++ it)) = true := by
      rw [htr]
      unfold bulletPat
      rw [hdata]
      rfl
    rw [if_pos hpat]
    have hstrip : stripBulletMarker (jsTrim (("- ") ++ it)) = it := by
      rw [htr]
      unfold stripBulletMarker
      rw [if_pos (by rw [← htr]; exact hpat)]
      rw [String.ext_iff]
      show ((("- ") ++ it).data.drop 1).dropWhile isWsC = it.data
      rw [hdata]
      show (' ' :: it.data).dropWhile isWsC = it.data
      rw [List.dropWhile_cons, if_pos (by decide)]
      obtain ⟨hne, hh, _⟩ := hc
      cases hq : it.data with
      | nil => exact absurd hq hne
      | cons x xs =>
        rw [List.dropWhile_cons]
        rw [hq] at hh
        simp only [List.head?_cons, Option.all_some] at hh
        rw [if_neg (by simp_all)]
    rw [hstrip]
    rw [ih (i + 1) (acc ++ [it]) (fun x hx => hclean x (by simp [hx]))]
    rw [Prod.mk.injEq]
    constructor
    · simp
    · simp only [List.length_cons]
      push_cast
      ring

theorem c9amended (lines : List String) (i : Int) (its : List String)
    (hitems : (parseBulletList lines i).block.items = some its)
    (hnoind : ∀ it ∈ its, ("  ").data.isPrefixOf it.data = false) :
    (parseBulletList (serializeBulletItems its) 0).block.items = some its := by
  have hits : its = (bulletGo (lines.drop i.toNat) i []).1 := by
    unfold parseBulletList at hitems
    simp only [Option.some.injEq] at hitems
    exact hitems.symm
  have hprod : ∀ it ∈ its, cleanItem it ∨ ("  ").data.isPrefixOf it.data = true := by
    rw [hits]
    exact bulletGo_items_clean (lines.drop i.toNat) i []
      (by intro x hx; exact absurd hx (List.not_mem_nil x))
  have hcl : ∀ it ∈ its, cleanItem it := by
    intro it hit
    rcases hprod it hit with h | h
    · exact h
    · rw [hnoind it hit] at h
      exact Bool.noConfusion h
  show some ((bulletGo ((serializeBulletItems its).drop ((0 : Int)).toNat) 0 []).1) = some its
  rw [show ((0 : Int)).toNat = 0 from rfl, List.drop_zero, bulletGo_ser its 0 [] hcl]
  simp

-- ── Claim theorems ──

/-- Claim C1 (code_bug evidence): the claim says `parse` terminates on every
input and the block-dispatch loop always advances past comment-like and
malformed-image lines.  The code does not: on the single-line chunk
`<!-- hello -->` (a comment that is not a notes/background directive) no
dispatcher arm matches, `parseParagraph` breaks immediately on `^<!--` and
returns `endIndex = startIndex - 1 = -1`, so the cursor stays at 0 forever;
the dispatch loop never reaches its exit condition for ANY fuel, and `parse`
never completes.  The same happens for the malformed image line `![`. -/
theorem C1_parse_nontermination :
    (parseParagraph [("<!-- hello -->")] 0).endIndex = -1 ∧
    (∀ (fuel : Nat) (st : SlideSt), (slideLoop [("<!-- hello -->")] fuel 0 st).2 = false) ∧
    (∀ fuel : Nat, (parse fuel ("<!-- hello -->")).2 = false) ∧
    (parseParagraph [("![")] 0).endIndex = -1 ∧
    (∀ (fuel : Nat) (st : SlideSt), (slideLoop [("![")] fuel 0 st).2 = false) := by
  refine ⟨by decide, slideLoop_comment, parse_comment_diverges, by decide,
    slideLoop_malformed_img⟩

/-- Claim C2, counterexample: the line `   ---` has trimmed form `---` (three
dashes) and fence parity at it is even, yet it does NOT close the chunk —
the separator regex runs on the raw line and rejects leading whitespace.
The unindented `---` in the same position does split. -/
theorem C2_counterexample :
    jsTrim ("   ---") = "---" ∧
    isInsideCodeBlock [("a")] = false ∧
    splitIntoSlides [("a"), ("   ---"), ("b")] 0 = [[("a"), ("   ---"), ("b")]] ∧
    splitIntoSlides [("a"), ("---"), ("b")] 0 = [[("a")], [("b")]] := by
  decide

/-- Claim C2 (amended): a line closes the current slide chunk iff the RAW
line is a run of three-or-more dashes followed only by (trailing)
whitespace — leading whitespace disqualifies it — and the fence parity of
the current chunk (count of trimmed lines starting with three backticks) is
even; consequently, at odd parity the line is always appended to the chunk,
so a separator between an opening and a closing fence never splits. -/
theorem C2_separator_decision (line : String) (current : List String) :
    (sepDecision line current = true ↔
      (rawSepShape line ∧ Even (current.countP isFenceLine))) ∧
    (¬ Even (current.countP isFenceLine) →
      ∀ chunks, splitStep (chunks, current) line = (chunks, current ++ [line])) :=
  c2test line current

/-- Claim C2, witness for the amended theorem at a concrete input: inside an
open fence (parity 1) the line `---` is content, not a separator. -/
theorem C2_witness :
    splitStep ([], [("```")]) ("---") = ([], [("```"), ("---")]) := by
  have h := C2_separator_decision ("---") [("```")]
  exact h.2 (by decide) []

/-- Claim C3, counterexample: a branch line requires the dash at column 0;
with ONE leading space, ` - A` matches neither the branch nor the child
pattern and is silently ignored, whereas the claim says 0–1 leading spaces
start a top-level branch.  `- A` (zero spaces) does start one. -/
theorem C3_counterexample :
    (parseMindMapData [(" - A")]).branches = [] ∧
    (parseMindMapData [("- A")]).branches = [⟨("A"), some []⟩] := by
  decide

/-- Claim C3 (amended): `- <text>` with NO leading space starts a top-level
branch with an empty (present) child list; a line with ≥2 leading spaces
then `- <text>` is appended to the most recently added branch and ignored
when no branch exists; a line with exactly one leading space before the
dash is ignored; the claim's example input parses as stated. -/
theorem C3_mindmap_lines :
    parseMindMapData [("center: X"), ("- A"), ("  - A1"), ("- B")] =
      ⟨("X"), [⟨("A"), some [("A1")]⟩, ⟨("B"), some []⟩]⟩ ∧
    (∀ (st : MindMapData) (line lbl : String), branchMatchQ line = some lbl →
      mmStep st line = { st with branches := st.branches ++ [⟨lbl, some []⟩] }) ∧
    (∀ (st : MindMapData) (line lbl : String), childMatchQ line = some lbl →
      (st.branches ≠ [] → mmStep st line = { st with branches := appendChild st.branches lbl }) ∧
      (st.branches = [] → mmStep st line = st)) ∧
    (∀ (st : MindMapData) (s : List Char), mmStep st ⟨' ' :: '-' :: s⟩ = st) := by
  exact ⟨by decide, mmStep_branch, mmStep_child, mmStep_one_space⟩

/-- Claim C3, witness for the amended theorem at concrete lines. -/
theorem C3_witness :
    mmStep ⟨("X"), []⟩ ("- A") = ⟨("X"), [⟨("A"), some []⟩]⟩ ∧
    mmStep ⟨("X"), [⟨("A"), some []⟩]⟩ ("  - A1") = ⟨("X"), [⟨("A"), some [("A1")]⟩]⟩ ∧
    mmStep ⟨("X"), []⟩ ("  - A1") = ⟨("X"), []⟩ := by
  refine ⟨?_, ?_, ?_⟩
  · exact (C3_mindmap_lines.2.1 ⟨("X"), []⟩ ("- A") ("A") (by decide)).trans (by decide)
  · exact ((C3_mindmap_lines.2.2.1 ⟨("X"), [⟨("A"), some []⟩]⟩ ("  - A1") ("A1")
      (by decide)).1 (by decide)).trans (by decide)
  · exact (C3_mindmap_lines.2.2.1 ⟨("X"), []⟩ ("  - A1") ("A1") (by decide)).2 rfl

/-- Claim C4: each chart-fence line acts independently — the kind is the
last valid (case-insensitive) `type:` value, defaulting to `bar`; the title
is the last `title:` value; the items are exactly the `<label>: <number>`
lines that are neither blank nor valid type/title lines, in source order
with duplicates preserved; and the claim's concrete example holds. -/
theorem C4_chart_lines :
    parseChartData [("Q1: 10"), ("Q2: 20")] =
      ⟨ChartKind.bar, none, [⟨("Q1"), 10⟩, ⟨("Q2"), 20⟩]⟩ ∧
    (∀ ls : List String, (parseChartData ls).items = ls.filterMap chartItemOf) ∧
    (∀ ls : List String, (parseChartData ls).type =
      (ls.filterMap (fun l => typeMatchQ (jsTrim l))).getLastD ChartKind.bar) ∧
    (∀ ls : List String, (parseChartData ls).title =
      (ls.filterMap (fun l => titleMatchQ (jsTrim l))).getLast?) := by
  refine ⟨by decide, ?_, ?_, ?_⟩
  · intro ls
    have h := chartItems_foldl ls ⟨ChartKind.bar, none, []⟩
    simpa using h
  · intro ls
    exact chartType_foldl ls ⟨ChartKind.bar, none, []⟩
  · intro ls
    have h := chartTitle_foldl ls ⟨ChartKind.bar, none, []⟩
    simpa using h

/-- Claim C5: `inferLayout` agrees everywhere with the claim's cascade
(exactly one `image` block and no truthy title → image-full; else first
chunk with no prior metadata title and zero blocks → title; else truthy
title and zero blocks → section; else content), never produces `two-column`
or `blank`, and is exactly what `parseSlide` stores in the slide. -/
theorem C5_layout_inference :
    (∀ (title subtitle : Option String) (blocks : List ContentBlock) (first : Bool),
      inferLayout title subtitle blocks first = inferLayoutSpec title subtitle blocks first ∧
      inferLayout title subtitle blocks first ≠ SlideLayout.twoColumn ∧
      inferLayout title subtitle blocks first ≠ SlideLayout.blank) ∧
    (∀ (fuel : Nat) (lines : List String) (first : Bool),
      (parseSlide fuel lines first).1.layout =
        inferLayout ((slideScan fuel lines).1).title ((slideScan fuel lines).1).subtitle
          ((slideScan fuel lines).1).blocks first) :=
  ⟨c5test, fun _ _ _ => rfl⟩

/-- Claim C6, counterexample: the alias key `color` (not among the eight
claimed keys) sets the accent color, so the claimed key list is not
exhaustive; an unrecognized key leaves the metadata at its default. -/
theorem C6_counterexample :
    (parseFrontmatter [("---"), ("color: red"), ("---")]).1.accentColor = some ("red") ∧
    (parseFrontmatter [("---"), ("x: y"), ("---")]).1 = ({} : PresentationMeta) ∧
    ¬ (("color") ∈ claimedFmKeys) := by
  decide

/-- Claim C6 (amended): the keys that can affect the metadata are exactly
the claimed eight PLUS the alias spellings `aspectratio`, `accentcolor`,
`color`, `font`, `fontfamily` (all case-insensitive after trimming): an
interior line whose key is outside that list — or with no key at all —
leaves the metadata unchanged, and an aspect-ratio value is accepted only
when it is exactly one of the two enumerated ratios.  The final conjuncts
exhibit the accepting and rejecting behaviour concretely. -/
theorem C6_frontmatter_keys (meta : PresentationMeta) (rawLine : String) :
    ((fmKeyOf rawLine = none → fmStep meta rawLine = meta) ∧
    (∀ k, fmKeyOf rawLine = some k → k ∉ recognizedFmKeys → fmStep meta rawLine = meta) ∧
    (∀ k v, fmKeyOf rawLine = some k → fmValueOf rawLine = some v →
      (k = "aspect-ratio" ∨ k = "aspectratio") → v ≠ "4:3" → v ≠ "16:9" →
      fmStep meta rawLine = meta)) ∧
    (parseFrontmatter [("---"), ("title: T"), ("---")]).1.title = some ("T") ∧
    (parseFrontmatter [("---"), ("font: F"), ("---")]).1.fontFamily = some ("F") ∧
    (parseFrontmatter [("---"), ("aspect-ratio: 4:3"), ("---")]).1.aspectRatio = "4:3" ∧
    (parseFrontmatter [("---"), ("aspect-ratio: 3:2"), ("---")]).1.aspectRatio = "16:9" := by
  exact ⟨fm_unrecognized meta rawLine, by decide, by decide, by decide, by decide⟩

/-- Claim C6, witness for the amended theorem: a line with the unrecognized
key `foo` leaves the (default) metadata unchanged. -/
theorem C6_witness : fmStep {} ("foo: bar") = ({} : PresentationMeta) := by
  have h := C6_frontmatter_keys {} ("foo: bar")
  exact h.1.2.1 ("foo") (by decide) (by decide)

/-- Claim C7: the returned presentation has exactly one slide per segmented
chunk containing a non-blank line (all-blank chunks are filtered out before
slide construction), and the slide list is the in-order image of the
filtered chunk list. -/
theorem C7_slide_count (fuel : Nat) (input : String) :
    ((parse fuel input).1).slides.length =
      (splitChunksRaw (splitLines input) (parseFrontmatter (splitLines input)).2).countP
        chunkNonBlank ∧
    ((parse fuel input).1).slides =
      (parseChunks fuel (hasFrontmatterTitle (parseFrontmatter (splitLines input)).1) 0
        (splitIntoSlides (splitLines input) (parseFrontmatter (splitLines input)).2)).map
        Prod.fst :=
  ⟨c7test fuel input, rfl⟩

/-- Claim C8: assembly copies the first slide's non-empty title into the
metadata when the frontmatter title is missing (JS-falsy), and changes
nothing else: every other metadata field equals the frontmatter value and
the slide list is exactly the per-chunk parse, untouched. -/
theorem C8_title_backfill (input : String) (fuel : Nat) :
    (∀ s0 : Slide,
      ((parse fuel input).1).slides.head? = some s0 →
      jsTruthy (parseFrontmatter (splitLines input)).1.title = false →
      jsTruthy s0.title = true →
      ((parse fuel input).1).meta.title = s0.title) ∧
    ((parse fuel input).1).meta.author = (parseFrontmatter (splitLines input)).1.author ∧
    ((parse fuel input).1).meta.date = (parseFrontmatter (splitLines input)).1.date ∧
    ((parse fuel input).1).meta.theme = (parseFrontmatter (splitLines input)).1.theme ∧
    ((parse fuel input).1).meta.aspectRatio =
      (parseFrontmatter (splitLines input)).1.aspectRatio ∧
    ((parse fuel input).1).meta.accentColor =
      (parseFrontmatter (splitLines input)).1.accentColor ∧
    ((parse fuel input).1).meta.fontFamily =
      (parseFrontmatter (splitLines input)).1.fontFamily ∧
    ((parse fuel input).1).meta.style = (parseFrontmatter (splitLines input)).1.style ∧
    ((parse fuel input).1).slides =
      (parseChunks fuel (hasFrontmatterTitle (parseFrontmatter (splitLines input)).1) 0
        (splitIntoSlides (splitLines input) (parseFrontmatter (splitLines input)).2)).map
        Prod.fst :=
  c8test input fuel

/-- Claim C8, witness: with no frontmatter and the first-slide heading
`Welcome`, the post-parse metadata title is `Welcome`. -/
theorem C8_witness : ((parse 16 ("# Welcome")).1).meta.title = some ("Welcome") := by
  have h := C8_title_backfill ("# Welcome") 16
  exact (h.1 ⟨SlideLayout.title, some ("Welcome"), none, [], none, none⟩
    (by decide) (by decide) (by decide)).trans (by decide)

/-- Claim C9, counterexample: the degenerate line `  - ` (indent, dash,
trailing space) reaches the sub-item branch and stores the item `  -`;
re-serializing (`  - -`) and re-parsing yields `-` instead, so the
roundtrip fails for this parser-produced bullets block. -/
theorem C9_counterexample :
    (parseBulletList [("- a"), ("  - ")] 0).block.items = some [("a"), ("  -")] ∧
    serializeBulletItems [("a"), ("  -")] = [("- a"), ("  - -")] ∧
    (parseBulletList (serializeBulletItems [("a"), ("  -")]) 0).block.items =
      some [("a"), ("-")] ∧
    some [("a"), ("-")] ≠ some [("a"), ("  -")] := by
  decide

/-- Claim C9 (amended): for every bullets block produced by the bullet-list
parser in which no stored item carries the two-space sub-item prefix,
re-serializing the items (marker restored, sub-items would keep their
two-space prefix ahead of the marker) and re-parsing reproduces the same
items array. -/
theorem C9_bullet_roundtrip (lines : List String) (i : Int) (its : List String)
    (hitems : (parseBulletList lines i).block.items = some its)
    (hnoind : ∀ it ∈ its, ("  ").data.isPrefixOf it.data = false) :
    (parseBulletList (serializeBulletItems its) 0).block.items = some its :=
  c9amended lines i its hitems hnoind

/-- Claim C9, witness: the roundtrip at the concrete block parsed from
`- a` / `- b`. -/
theorem C9_witness :
    (parseBulletList (serializeBulletItems [("a"), ("b")]) 0).block.items =
      some [("a"), ("b")] := by
  exact C9_bullet_roundtrip [("- a"), ("- b")] 0 [("a"), ("b")] (by decide) (by decide)

/-- Claim C10: every `bullets` or `numbered` block in any parsed
presentation carries a present, nonempty items array — the dispatcher only
invokes a list sub-parser when the current line matches the list pattern,
whose first iteration already pushes an item. -/
theorem C10_list_items_nonempty (fuel : Nat) (input : String) :
    ∀ s ∈ ((parse fuel input).1).slides, ∀ b ∈ s.blocks,
      (b.type = BlockType.bullets ∨ b.type = BlockType.numbered) →
      ∃ its, b.items = some its ∧ its ≠ [] :=
  c10test fuel input

/-- Claim C10, witness: the bullets block parsed from `- a` has the
nonempty items array `["a"]`. -/
theorem C10_witness :
    ∃ its, ({ type := BlockType.bullets, content := ("a"), items := some [("a")] } :
      ContentBlock).items = some its ∧ its ≠ [] := by
  refine C10_list_items_nonempty 8 ("- a")
    ⟨SlideLayout.content, none, none,
      [{ type := BlockType.bullets, content := ("a"), items := some [("a")] }], none, none⟩
    (by decide) _ (by decide) (by decide)
